import Mathlib

/-!
Shallow embedding of the `array_pool` crate (`src/raw_buffer.rs`,
`src/pool.rs`): a concurrent, size-classed pool of fixed-capacity buffers.

Modelling conventions.

* `usize` is modelled as `Nat`; the shift `1usize << x` is modelled as
  `2 ^ x`, which is exact for every exponent below 64, the range the
  theorems quantify over.
* Raw memory is modelled one slot at a time.  A slot is either not yet
  constructed, holds a live value, or has had its destructor run
  (`drop_in_place`).  Running `drop_in_place` on a slot that is already in
  the destructed state is the double-destruction event the safety claims
  are about; the operations count those events.
* Allocation identity (the pointer handed out by `alloc`) is modelled by a
  fresh natural number threaded through the operations, matching the
  allocation counter the crate's own test build maintains
  (`global_allocation` in `raw_buffer.rs`).  Each rent reports whether it
  allocated a fresh buffer.
* Threads: every operation takes the acting thread's identity (the `u64`
  image of `ThreadId`) as an explicit argument.  A live thread's
  `ThreadLocal` slot and the weak reference registered in the chain's
  `BTreeMap` denote the same `LocalBufferChain`, so the model stores each
  local stash once, in the registry, keyed by thread id; `none` stands for
  a weak reference that no longer upgrades because its thread's stash was
  destroyed.  The `BTreeMap` is a list of key-value pairs kept sorted by
  key, which is the order its iterator visits entries.
* The stash inside a `LocalBufferChain` is a `Vec` used as a stack:
  `push` appends at the end, `pop` removes the last element.
-/

namespace ArrayPoolModel

/-- The construction state of one slot of a raw buffer. -/
inductive Slot (α : Type) where
  | uninit
  | live (v : α)
  | dropped
deriving DecidableEq

/-- `RawBuffer<T>` from `raw_buffer.rs`: an allocation identity standing for
the raw pointer, the buffer's own `initialized` flag, and one slot per
element of the capacity. -/
structure RawBuffer (α : Type) where
  id : Nat
  initialized : Bool
  slots : List (Slot α)
deriving DecidableEq

variable {α : Type}

/-- `RawBuffer::empty`: the zero-capacity sentinel with no allocation. -/
def RawBuffer.empty (α : Type) : RawBuffer α :=
  ⟨0, false, []⟩

/-- `RawBuffer::new(capacity, zeroed)`: a zero capacity yields the sentinel
without consuming an allocation; otherwise a fresh allocation with
`capacity` unconstructed slots.  The `zeroed` flag only selects
`alloc_zeroed` over `alloc` and does not construct any element, so it does
not affect the slot states. -/
def RawBuffer.new (α : Type) (capacity : Nat) (zeroed : Bool) (nid : Nat) :
    RawBuffer α × Nat :=
  if capacity = 0 then (RawBuffer.empty α, nid)
  else (⟨nid, false, List.replicate capacity Slot.uninit⟩, nid + 1)

/-- `drop_in_place` on one slot: the destructor runs and the slot becomes
destructed; the returned flag records whether the slot's contents had
already been destructed earlier (a double destruction). -/
def Slot.dropInPlace : Slot α → Slot α × Bool
  | .live _ => (.dropped, false)
  | .dropped => (.dropped, true)
  | .uninit => (.dropped, false)

/-- One thread's stash of released buffers for one size class
(the `Vec<RawBuffer<T>>` inside `LocalBufferChain`). -/
abbrev Stash (α : Type) := List (RawBuffer α)

/-- The chain's registry (`chains: Mutex<BTreeMap<u64, Weak<..>>>`):
thread id to the thread's stash, `none` when the weak reference is dead.
Kept sorted by key. -/
abbrev Registry (α : Type) := List (Nat × Option (Stash α))

/-- `BTreeMap` lookup on the registry. -/
def regFind : Registry α → Nat → Option (Option (Stash α))
  | [], _ => none
  | (k, v) :: rest, t => if k = t then some v else regFind rest t

/-- `BTreeMap::insert`: keeps the key list sorted, overwriting an existing
key. -/
def regInsert : Registry α → Nat → Option (Stash α) → Registry α
  | [], t, v => [(t, v)]
  | (k, w) :: rest, t, v =>
    if t < k then (t, v) :: (k, w) :: rest
    else if t = k then (t, v) :: rest
    else (k, w) :: regInsert rest t v

/-- `BufferChain<T>` together with its mutable state: the class size, the
chain-wide hint counter, and the registry of per-thread stashes. -/
structure BufferChain (α : Type) where
  chunk_size : Nat
  chunk_count : Nat
  chains : Registry α
deriving DecidableEq

/-- `BufferChain::new(size_power)`. -/
def BufferChain.new (α : Type) (size_power : Nat) : BufferChain α :=
  ⟨2 ^ size_power, 0, []⟩

/-- `BorrowingSlice<T>`: the borrowed buffer, the owning chain (identified
by its class size, standing for the `Arc<BufferChain<T>>`), and the
handle-level liveness flag. -/
structure BorrowingSlice (α : Type) where
  array : RawBuffer α
  chain : Nat
  initialized : Bool
deriving DecidableEq

/-- `BufferChain::get_local` as it affects the shared state: the acting
thread's `LocalBufferChain` is created on first touch and a reference to it
is registered in the chain's registry under the thread's id. -/
def BufferChain.get_local (c : BufferChain α) (t : Nat) : BufferChain α :=
  match regFind c.chains t with
  | some (some _) => c
  | _ => { c with chains := regInsert c.chains t (some []) }

/-- `LocalBufferChain::borrow` on the acting thread's own stash: pop the
most recently pushed buffer and decrement the shared hint counter. -/
def BufferChain.borrowLocal (c : BufferChain α) (t : Nat) :
    Option (RawBuffer α) × BufferChain α :=
  match regFind c.chains t with
  | some (some stash) =>
    match stash.getLast? with
    | some b =>
      (some b, { c with chains := regInsert c.chains t (some stash.dropLast),
                        chunk_count := c.chunk_count - 1 })
    | none => (none, c)
  | _ => (none, c)

/-- The loop body of `BufferChain::borrow_from_other_chains`: walk the
registry in key order; a dead weak reference is queued for removal and
purged at the end of the scan; the first alive stash whose pop succeeds
wins and stops the scan, leaving the remaining entries untouched. -/
def scanChains : Registry α → Option (RawBuffer α) × Registry α
  | [] => (none, [])
  | (_, none) :: rest => scanChains rest
  | (k, some stash) :: rest =>
    match stash.getLast? with
    | some b => (some b, (k, some stash.dropLast) :: rest)
    | none =>
      let r := scanChains rest
      (r.1, (k, some stash) :: r.2)

/-- `BufferChain::borrow_from_other_chains`.  A winning pop went through
`LocalBufferChain::borrow`, which decrements the shared hint counter. -/
def BufferChain.borrow_from_other_chains (c : BufferChain α) :
    Option (RawBuffer α) × BufferChain α :=
  match scanChains c.chains with
  | (some b, reg) =>
    (some b, { c with chains := reg, chunk_count := c.chunk_count - 1 })
  | (none, reg) => (none, { c with chains := reg })

/-- `BufferChain::new_array`: allocate a fresh buffer of the class size and
write one fabricated element into every slot, one `ptr::write` per index in
increasing order.  `fab i` is the value produced by the `i`-th call of the
fabricator. -/
def BufferChain.new_array (c : BufferChain α) (fab : Nat → α) (nid : Nat) :
    RawBuffer α × Nat :=
  let r := RawBuffer.new α c.chunk_size false nid
  ({ r.1 with slots := (List.range c.chunk_size).map (fun i => Slot.live (fab i)) },
   r.2)

/-- `BufferChain::new_uninitialized`. -/
def BufferChain.new_uninitialized (c : BufferChain α) (zeroed : Bool) (nid : Nat) :
    RawBuffer α × Nat :=
  RawBuffer.new α c.chunk_size zeroed nid

/-- The result of a chain-level rent: the handle, the updated chain, the
next allocation id, and whether a fresh buffer was allocated. -/
structure ChainRent (α : Type) where
  slice : BorrowingSlice α
  chain : BufferChain α
  nextId : Nat
  fresh : Bool
deriving DecidableEq

/-- `BufferChain::rent_with`: register the local stash, then take the
fast-path fresh allocation when the hint counter reads zero, else try the
thread's own stash, else steal from another thread's stash, else allocate
fresh.  Every path hands the handle out with `initialized: true`. -/
def BufferChain.rent_with (c₀ : BufferChain α) (t : Nat) (fab : Nat → α)
    (nid : Nat) : ChainRent α :=
  let c := c₀.get_local t
  if c.chunk_count = 0 then
    let r := c.new_array fab nid
    ⟨⟨r.1, c.chunk_size, true⟩, c, r.2, true⟩
  else
    match c.borrowLocal t with
    | (some cached, c') => ⟨⟨cached, c.chunk_size, true⟩, c', nid, false⟩
    | (none, c') =>
      match c'.borrow_from_other_chains with
      | (some cached, c'') => ⟨⟨cached, c.chunk_size, true⟩, c'', nid, false⟩
      | (none, c'') =>
        let r := c''.new_array fab nid
        ⟨⟨r.1, c''.chunk_size, true⟩, c'', r.2, true⟩

/-- `BufferChain::rent_or_create_uninitialized`: same search order as
`rent_with`, but a fresh buffer is left unconstructed and the handle is
handed out with `initialized: false`. -/
def BufferChain.rent_or_create_uninitialized (c₀ : BufferChain α) (t : Nat)
    (zeroed : Bool) (nid : Nat) : ChainRent α :=
  let c := c₀.get_local t
  if c.chunk_count = 0 then
    let r := c.new_uninitialized zeroed nid
    ⟨⟨r.1, c.chunk_size, false⟩, c, r.2, true⟩
  else
    match c.borrowLocal t with
    | (some cached, c') => ⟨⟨cached, c.chunk_size, false⟩, c', nid, false⟩
    | (none, c') =>
      match c'.borrow_from_other_chains with
      | (some cached, c'') => ⟨⟨cached, c.chunk_size, false⟩, c'', nid, false⟩
      | (none, c'') =>
        let r := c''.new_uninitialized zeroed nid
        ⟨⟨r.1, c''.chunk_size, false⟩, c'', r.2, true⟩

/-- The destructor loop of `Drop for BorrowingSlice`: run `drop_in_place`
on slot `i` for `i = 0, 1, …` in increasing order, recording the visited
indices and counting the slots that had already been destructed. -/
def destructLoop : List (Slot α) → Nat → List (Slot α) × List Nat × Nat
  | [], _ => ([], [], 0)
  | s :: rest, i =>
    let d := s.dropInPlace
    let r := destructLoop rest (i + 1)
    (d.1 :: r.1, i :: r.2.1, (if d.2 then 1 else 0) + r.2.2)

/-- `Drop for BorrowingSlice`, acting on the chain the slice borrows from:
a zero-capacity sentinel returns immediately; otherwise the slots are
destructed in index order when the handle is marked live, and then the raw
buffer is pushed onto the acting thread's own stash (created on first
touch) and the hint counter is incremented.  Returns the updated chain, the
destructed indices in visit order, and the double-destruction count. -/
def BufferChain.dropSlice (c₀ : BufferChain α) (t : Nat)
    (s : BorrowingSlice α) : BufferChain α × List Nat × Nat :=
  if s.array.slots.isEmpty then (c₀, [], 0)
  else
    let r :=
      if s.initialized then destructLoop s.array.slots 0
      else (s.array.slots, [], 0)
    let store : RawBuffer α := { s.array with slots := r.1 }
    let c := c₀.get_local t
    let c :=
      match regFind c.chains t with
      | some (some stash) =>
        { c with chains := regInsert c.chains t (some (stash ++ [store])) }
      | _ => { c with chains := regInsert c.chains t (some [store]) }
    ({ c with chunk_count := c.chunk_count + 1 }, r.2.1, r.2.2)

/-- `ArrayPoolError` from `pool.rs`; the design document calls
`MaxChunkSizeNotSufficient` the `ClassTooSmall` error. -/
inductive ArrayPoolError where
  | MaxPowerTooSmall
  | MaxChunkSizeNotSufficient
deriving DecidableEq

/-- `ArrayPool<T>`: the degenerate chain backing zero-capacity sentinel
handles and the ladder of size-class chains keyed by class size
(a `BTreeMap`, kept sorted by key). -/
structure ArrayPool (α : Type) where
  empty_chain : BufferChain α
  chunk_map : List (Nat × BufferChain α)
deriving DecidableEq

/-- `ArrayPool::with_max_power`: rejected below 4, otherwise one chain per
exponent `x` in `3 .. max_power`, keyed by `2 ^ x`, plus the degenerate
chain (built with exponent 0). -/
def ArrayPool.with_max_power (α : Type) (max_power : Nat) :
    Except ArrayPoolError (ArrayPool α) :=
  if max_power < 4 then .error .MaxPowerTooSmall
  else
    .ok { empty_chain := BufferChain.new α 0,
          chunk_map := (List.range (max_power - 3)).map
            (fun i => (2 ^ (i + 3), BufferChain.new α (i + 3))) }

/-- `ArrayPool::get_chain`: walk the class ladder in ascending key order
and return the first chain whose class size is at least the request. -/
def ArrayPool.get_chain (p : ArrayPool α) (minimum_capacity : Nat) :
    Option (Nat × BufferChain α) :=
  p.chunk_map.find? (fun kv => decide (minimum_capacity ≤ kv.1))

/-- Write back the updated state of the chain stored under key `k`
(the model counterpart of mutating through the `Arc`). -/
def ArrayPool.setChain (p : ArrayPool α) (k : Nat) (c : BufferChain α) :
    ArrayPool α :=
  { p with chunk_map := p.chunk_map.map (fun kv => if kv.1 = k then (k, c) else kv) }

/-- The result of a pool-level rent. -/
structure PoolRent (α : Type) where
  slice : BorrowingSlice α
  pool : ArrayPool α
  nextId : Nat
  fresh : Bool
deriving DecidableEq

/-- `ArrayPool::rent_with`. -/
def ArrayPool.rent_with (p : ArrayPool α) (t : Nat) (fab : Nat → α)
    (minimum_capacity nid : Nat) : Except ArrayPoolError (PoolRent α) :=
  match p.get_chain minimum_capacity with
  | some kc =>
    let r := kc.2.rent_with t fab nid
    .ok ⟨r.slice, p.setChain kc.1 r.chain, r.nextId, r.fresh⟩
  | none => .error .MaxChunkSizeNotSufficient

/-- `ArrayPool::rent_or_create_uninitialized`. -/
def ArrayPool.rent_or_create_uninitialized (p : ArrayPool α) (t : Nat)
    (minimum_capacity : Nat) (zeroed : Bool) (nid : Nat) :
    Except ArrayPoolError (PoolRent α) :=
  match p.get_chain minimum_capacity with
  | some kc =>
    let r := kc.2.rent_or_create_uninitialized t zeroed nid
    .ok ⟨r.slice, p.setChain kc.1 r.chain, r.nextId, r.fresh⟩
  | none => .error .MaxChunkSizeNotSufficient

/-- `Drop for BorrowingSlice` at pool level: the handle's `Arc` leads to
its own chain, located here by its class size; a slice over the
zero-capacity sentinel returns without touching any state. -/
def ArrayPool.dropSlice (p : ArrayPool α) (t : Nat) (s : BorrowingSlice α) :
    ArrayPool α × List Nat × Nat :=
  if s.array.slots.isEmpty then (p, [], 0)
  else
    match p.chunk_map.find? (fun kv => decide (kv.1 = s.chain)) with
    | some kc =>
      let r := kc.2.dropSlice t s
      (p.setChain kc.1 r.1, r.2.1, r.2.2)
    | none =>
      let r := p.empty_chain.dropSlice t s
      ({ p with empty_chain := r.1 }, r.2.1, r.2.2)

/-- Pairwise `mem::swap` of slots `0 ≤ i < n` between two buffers: after
the loop the first buffer's first `n` slots are the second's original first
`n` slots and vice versa. -/
def swapPrefix (a b : List (Slot α)) (n : Nat) : List (Slot α) × List (Slot α) :=
  (b.take n ++ a.drop n, a.take n ++ b.drop n)

/-- `ArrayPool::expand_buffer`: rent an uninitialized handle for twice the
old capacity, swap the old elements into its front, mark the old handle
not-live, release it, and return the new handle.  Besides the rent result
this returns the destruct events and double-destruction count of the old
handle's release. -/
def ArrayPool.expand_buffer (p : ArrayPool α) (t : Nat) (s : BorrowingSlice α)
    (nid : Nat) : Except ArrayPoolError (PoolRent α × List Nat × Nat) :=
  let old_size := s.array.slots.length
  let new_size := old_size * 2
  match p.rent_or_create_uninitialized t new_size false nid with
  | .ok r =>
    let sw := swapPrefix s.array.slots r.slice.array.slots old_size
    let old' : BorrowingSlice α := ⟨{ s.array with slots := sw.1 }, s.chain, false⟩
    let newSlice : BorrowingSlice α :=
      { r.slice with array := { r.slice.array with slots := sw.2 } }
    let d := r.pool.dropSlice t old'
    .ok (⟨newSlice, d.1, r.nextId, r.fresh⟩, d.2.1, d.2.2)
  | .error _ => .error .MaxChunkSizeNotSufficient

/-- The result of `ArrayPool::shrink_buffer`; `fellBack` records that the
rent for the halved capacity failed and the original handle was returned
unchanged. -/
structure ShrinkOut (α : Type) where
  slice : BorrowingSlice α
  pool : ArrayPool α
  nextId : Nat
  fellBack : Bool
deriving DecidableEq

/-- `ArrayPool::shrink_buffer`: rent an uninitialized handle for half the
old capacity, swap the first half of the elements into it, mark the old
handle not-live, release it, and return the new handle; when no chain can
serve the halved capacity the original handle is returned unchanged. -/
def ArrayPool.shrink_buffer (p : ArrayPool α) (t : Nat) (s : BorrowingSlice α)
    (nid : Nat) : ShrinkOut α :=
  let old_size := s.array.slots.length
  let new_size := old_size / 2
  match p.rent_or_create_uninitialized t new_size false nid with
  | .ok r =>
    let sw := swapPrefix s.array.slots r.slice.array.slots new_size
    let old' : BorrowingSlice α := ⟨{ s.array with slots := sw.1 }, s.chain, false⟩
    let newSlice : BorrowingSlice α :=
      { r.slice with array := { r.slice.array with slots := sw.2 } }
    let d := r.pool.dropSlice t old'
    ⟨newSlice, d.1, r.nextId, false⟩
  | .error _ => ⟨s, p, nid, true⟩

/-- `ArrayPool::rent_empty`: a handle over the zero-capacity sentinel,
owned by the degenerate chain, marked live. -/
def ArrayPool.rent_empty (p : ArrayPool α) : BorrowingSlice α :=
  ⟨RawBuffer.empty α, p.empty_chain.chunk_size, true⟩

/-- `ArrayPool::min_size`: the smallest class size (first key of the
sorted map). -/
def ArrayPool.min_size (p : ArrayPool α) : Option Nat :=
  p.chunk_map.head?.map Prod.fst

/-- `ArrayPool::max_size`: the largest class size (last key of the
sorted map). -/
def ArrayPool.max_size (p : ArrayPool α) : Option Nat :=
  p.chunk_map.getLast?.map Prod.fst

/-- The ladder of class sizes a pool constructed with maximum exponent
`max_power` carries: `2 ^ x` for `x` in `3 .. max_power`. -/
def classList (max_power : Nat) : List Nat :=
  (List.range (max_power - 3)).map (fun i => 2 ^ (i + 3))

/-- Well-formedness of one chain's shared state: every buffer parked in any
registered stash has exactly the chain's class size. -/
def BufferChain.WF (c : BufferChain α) : Prop :=
  ∀ e ∈ c.chains, ∀ b ∈ e.2.getD [], b.slots.length = c.chunk_size

/-- Well-formedness of a pool state: class keys strictly increase (the
`BTreeMap` order), are positive, each key equals its chain's class size,
and each chain is well-formed. -/
def ArrayPool.WF (p : ArrayPool α) : Prop :=
  (p.chunk_map.map Prod.fst).Pairwise (· < ·) ∧
  ∀ e ∈ p.chunk_map, 0 < e.1 ∧ e.1 = e.2.chunk_size ∧ e.2.WF

instance decidableChainWF (c : BufferChain α) : Decidable c.WF :=
  inferInstanceAs (Decidable (∀ e ∈ c.chains, ∀ b ∈ e.2.getD [],
    b.slots.length = c.chunk_size))

instance decidablePoolWF (p : ArrayPool α) : Decidable p.WF :=
  inferInstanceAs (Decidable ((p.chunk_map.map Prod.fst).Pairwise (· < ·) ∧
    ∀ e ∈ p.chunk_map, 0 < e.1 ∧ e.1 = e.2.chunk_size ∧ e.2.WF))

/-- `n` is the smallest class of the `max_power` ladder that can hold `K`
(the routing target the design document specifies). -/
def isSmallestClassGE (max_power K n : Nat) : Prop :=
  n ∈ classList max_power ∧ K ≤ n ∧ ∀ c ∈ classList max_power, K ≤ c → n ≤ c

end ArrayPoolModel

namespace ArrayPoolModel

variable {α : Type}

/-! ### Registry lemmas -/

theorem regFind_regInsert_self (reg : Registry α) (t : Nat) (v : Option (Stash α)) :
    regFind (regInsert reg t v) t = some v := by
  induction reg with
  | nil => simp [regInsert, regFind]
  | cons kw rest ih =>
    obtain ⟨k, w⟩ := kw
    by_cases h1 : t < k
    · simp [regInsert, h1, regFind]
    · by_cases h2 : t = k
      · simp [regInsert, h1, h2, regFind]
      · have hk : ¬ k = t := fun h => h2 h.symm
        simp [regInsert, h1, h2, regFind, hk, ih]

theorem mem_regInsert {reg : Registry α} {t : Nat} {v : Option (Stash α)}
    {e : Nat × Option (Stash α)} (h : e ∈ regInsert reg t v) :
    e = (t, v) ∨ e ∈ reg := by
  induction reg with
  | nil => simpa [regInsert] using h
  | cons kw rest ih =>
    obtain ⟨k, w⟩ := kw
    by_cases h1 : t < k
    · simp only [regInsert, if_pos h1, List.mem_cons] at h
      rcases h with h | h | h
      · exact Or.inl h
      · exact Or.inr (by simp [h])
      · exact Or.inr (List.mem_cons_of_mem _ h)
    · by_cases h2 : t = k
      · simp only [regInsert, if_neg h1, if_pos h2, List.mem_cons] at h
        rcases h with h | h
        · exact Or.inl h
        · exact Or.inr (List.mem_cons_of_mem _ h)
      · simp only [regInsert, if_neg h1, if_neg h2, List.mem_cons] at h
        rcases h with h | h
        · exact Or.inr (by simp [h])
        · rcases ih h with h | h
          · exact Or.inl h
          · exact Or.inr (List.mem_cons_of_mem _ h)

theorem regFind_mem {reg : Registry α} {t : Nat} {v : Option (Stash α)}
    (h : regFind reg t = some v) : (t, v) ∈ reg := by
  induction reg with
  | nil => simp [regFind] at h
  | cons kw rest ih =>
    obtain ⟨k, w⟩ := kw
    by_cases hk : k = t
    · simp only [regFind, if_pos hk] at h
      subst hk
      obtain rfl : w = v := by injection h
      exact List.mem_cons_self _ _
    · simp only [regFind, if_neg hk] at h
      exact List.mem_cons_of_mem _ (ih h)

/-! ### `get_local` lemmas -/

theorem get_local_chunk_size (c : BufferChain α) (t : Nat) :
    (c.get_local t).chunk_size = c.chunk_size := by
  unfold BufferChain.get_local
  cases h : regFind c.chains t with
  | none => rfl
  | some v => cases v <;> rfl

theorem get_local_chunk_count (c : BufferChain α) (t : Nat) :
    (c.get_local t).chunk_count = c.chunk_count := by
  unfold BufferChain.get_local
  cases h : regFind c.chains t with
  | none => rfl
  | some v => cases v <;> rfl

/-- The stash of the acting thread after `get_local` has registered it:
the thread's existing stash, or a fresh empty one. -/
def localStash (c : BufferChain α) (t : Nat) : Stash α :=
  match regFind c.chains t with
  | some (some st) => st
  | _ => []

theorem regFind_get_local_self (c : BufferChain α) (t : Nat) :
    regFind (c.get_local t).chains t = some (some (localStash c t)) := by
  unfold BufferChain.get_local localStash
  cases h : regFind c.chains t with
  | none => simpa using regFind_regInsert_self c.chains t (some [])
  | some v =>
    cases v with
    | none => simpa using regFind_regInsert_self c.chains t (some [])
    | some st => simpa using h

theorem get_local_WF {c : BufferChain α} (t : Nat) (h : c.WF) :
    (c.get_local t).WF := by
  unfold BufferChain.get_local
  cases hf : regFind c.chains t with
  | none =>
    intro e he b hb
    rcases mem_regInsert he with rfl | he
    · simp at hb
    · exact h e he b hb
  | some v =>
    cases v with
    | none =>
      intro e he b hb
      rcases mem_regInsert he with rfl | he
      · simp at hb
      · exact h e he b hb
    | some st => exact h

/-! ### `borrowLocal` lemmas -/

theorem borrowLocal_chunk_size (c : BufferChain α) (t : Nat) :
    (c.borrowLocal t).2.chunk_size = c.chunk_size := by
  unfold BufferChain.borrowLocal
  cases hf : regFind c.chains t with
  | none => rfl
  | some v =>
    cases v with
    | none => rfl
    | some st => cases hl : st.getLast? <;> simp [hl]

theorem borrowLocal_chunk_count (c : BufferChain α) (t : Nat) :
    (c.borrowLocal t).2.chunk_count = c.chunk_count ∨
      (c.borrowLocal t).2.chunk_count = c.chunk_count - 1 := by
  unfold BufferChain.borrowLocal
  cases hf : regFind c.chains t with
  | none => exact Or.inl rfl
  | some v =>
    cases v with
    | none => exact Or.inl rfl
    | some st => cases hl : st.getLast? <;> simp [hl]

theorem borrowLocal_some_length {c : BufferChain α} {t : Nat} {b : RawBuffer α}
    (hWF : c.WF) (h : (c.borrowLocal t).1 = some b) :
    b.slots.length = c.chunk_size := by
  unfold BufferChain.borrowLocal at h
  cases hf : regFind c.chains t with
  | none => simp [hf] at h
  | some v =>
    cases v with
    | none => simp [hf] at h
    | some st =>
      cases hl : st.getLast? with
      | none => simp [hf, hl] at h
      | some b' =>
        simp only [hf, hl] at h
        have hmem : b' ∈ st := List.mem_of_mem_getLast? hl
        have hlen := hWF (t, some st) (regFind_mem hf) b' (by simpa using hmem)
        have hb : b' = b := by simpa using h
        exact hb ▸ hlen

theorem borrowLocal_WF {c : BufferChain α} (t : Nat) (hWF : c.WF) :
    (c.borrowLocal t).2.WF := by
  unfold BufferChain.borrowLocal
  cases hf : regFind c.chains t with
  | none => exact hWF
  | some v =>
    cases v with
    | none => exact hWF
    | some st =>
      cases hl : st.getLast? with
      | none => simpa [hl] using hWF
      | some b =>
        simp only [hl]
        intro e he b' hb'
        rcases mem_regInsert he with rfl | he
        · have hsub : b' ∈ st := (List.dropLast_sublist st).subset (by simpa using hb')
          exact hWF (t, some st) (regFind_mem hf) b' (by simpa using hsub)
        · exact hWF e he b' hb'

/-! ### `scanChains` lemmas -/

theorem scanChains_some_origin {reg : Registry α} {b : RawBuffer α}
    (h : (scanChains reg).1 = some b) :
    ∃ k st, (k, some st) ∈ reg ∧ st.getLast? = some b := by
  induction reg with
  | nil => simp [scanChains] at h
  | cons kv rest ih =>
    obtain ⟨k, v⟩ := kv
    cases v with
    | none =>
      simp only [scanChains] at h
      obtain ⟨k', st', hmem, hl⟩ := ih h
      exact ⟨k', st', List.mem_cons_of_mem _ hmem, hl⟩
    | some st =>
      cases hl : st.getLast? with
      | none =>
        simp only [scanChains, hl] at h
        obtain ⟨k', st', hmem, hl'⟩ := ih h
        exact ⟨k', st', List.mem_cons_of_mem _ hmem, hl'⟩
      | some b' =>
        simp only [scanChains, hl] at h
        obtain rfl : b' = b := by injection h
        exact ⟨k, st, List.mem_cons_self _ _, hl⟩

theorem mem_scanChains {reg : Registry α} {e : Nat × Option (Stash α)}
    (h : e ∈ (scanChains reg).2) :
    e ∈ reg ∨ ∃ k st, (k, some st) ∈ reg ∧ e = (k, some st.dropLast) := by
  induction reg with
  | nil => simp [scanChains] at h
  | cons kv rest ih =>
    obtain ⟨k, v⟩ := kv
    cases v with
    | none =>
      simp only [scanChains] at h
      rcases ih h with h | ⟨k', st', hmem, rfl⟩
      · exact Or.inl (List.mem_cons_of_mem _ h)
      · exact Or.inr ⟨k', st', List.mem_cons_of_mem _ hmem, rfl⟩
    | some st =>
      cases hl : st.getLast? with
      | none =>
        simp only [scanChains, hl, List.mem_cons] at h
        rcases h with rfl | h
        · exact Or.inl (List.mem_cons_self _ _)
        · rcases ih h with h | ⟨k', st', hmem, rfl⟩
          · exact Or.inl (List.mem_cons_of_mem _ h)
          · exact Or.inr ⟨k', st', List.mem_cons_of_mem _ hmem, rfl⟩
      | some b =>
        simp only [scanChains, hl, List.mem_cons] at h
        rcases h with rfl | h
        · exact Or.inr ⟨k, st, List.mem_cons_self _ _, rfl⟩
        · exact Or.inl (List.mem_cons_of_mem _ h)

theorem borrow_from_other_chains_chunk_size (c : BufferChain α) :
    (c.borrow_from_other_chains).2.chunk_size = c.chunk_size := by
  unfold BufferChain.borrow_from_other_chains
  cases h : scanChains c.chains with
  | mk fst snd => cases fst <;> rfl

theorem borrow_from_other_chains_some_length {c : BufferChain α} {b : RawBuffer α}
    (hWF : c.WF) (h : (c.borrow_from_other_chains).1 = some b) :
    b.slots.length = c.chunk_size := by
  unfold BufferChain.borrow_from_other_chains at h
  cases hs : scanChains c.chains with
  | mk fst snd =>
    cases fst with
    | none => simp [hs] at h
    | some b' =>
      simp only [hs] at h
      obtain ⟨k, st, hmem, hl⟩ := scanChains_some_origin (b := b') (by rw [hs])
      have hlen := hWF (k, some st) hmem b' (by simpa using List.mem_of_mem_getLast? hl)
      have hb : b' = b := by simpa using h
      exact hb ▸ hlen

theorem borrow_from_other_chains_WF {c : BufferChain α} (hWF : c.WF) :
    (c.borrow_from_other_chains).2.WF := by
  have hreg : ∀ e ∈ (scanChains c.chains).2, ∀ b ∈ e.2.getD [],
      b.slots.length = c.chunk_size := by
    intro e he b hb
    rcases mem_scanChains he with he | ⟨k, st, hmem, rfl⟩
    · exact hWF e he b hb
    · have hsub : b ∈ st := (List.dropLast_sublist st).subset (by simpa using hb)
      exact hWF (k, some st) hmem b (by simpa using hsub)
  unfold BufferChain.borrow_from_other_chains
  cases hs : scanChains c.chains with
  | mk fst snd =>
    cases fst with
    | none => intro e he b hb; exact hreg e (by rw [hs]; exact he) b hb
    | some b' => intro e he b hb; exact hreg e (by rw [hs]; exact he) b hb

/-! ### Chain-level rent lemmas -/

theorem new_array_length (c : BufferChain α) (fab : Nat → α) (nid : Nat) :
    (c.new_array fab nid).1.slots.length = c.chunk_size := by
  simp [BufferChain.new_array]

theorem new_uninitialized_length (c : BufferChain α) (zeroed : Bool) (nid : Nat) :
    (c.new_uninitialized zeroed nid).1.slots.length = c.chunk_size := by
  unfold BufferChain.new_uninitialized RawBuffer.new
  by_cases h : c.chunk_size = 0 <;> simp [h, RawBuffer.empty]

theorem rent_with_length {c : BufferChain α} (t : Nat) (fab : Nat → α)
    (nid : Nat) (hWF : c.WF) :
    (c.rent_with t fab nid).slice.array.slots.length = c.chunk_size := by
  unfold BufferChain.rent_with
  have hWF1 : (c.get_local t).WF := get_local_WF t hWF
  have hcs : (c.get_local t).chunk_size = c.chunk_size := get_local_chunk_size c t
  dsimp only
  split
  · show ((c.get_local t).new_array fab nid).1.slots.length = c.chunk_size
    rw [new_array_length, hcs]
  · split
    · next cached c' heq =>
      show cached.slots.length = c.chunk_size
      have := borrowLocal_some_length hWF1 (by rw [heq])
      rwa [hcs] at this
    · next c' heq =>
      have hc' : c' = ((c.get_local t).borrowLocal t).2 := by rw [heq]
      have hWF2 : c'.WF := hc' ▸ borrowLocal_WF t hWF1
      have hcs2 : c'.chunk_size = c.chunk_size := by
        rw [hc', borrowLocal_chunk_size, hcs]
      split
      · next cached c'' heq2 =>
        show cached.slots.length = c.chunk_size
        have := borrow_from_other_chains_some_length hWF2 (by rw [heq2])
        rwa [hcs2] at this
      · next c'' heq2 =>
        show (c''.new_array fab nid).1.slots.length = c.chunk_size
        have hc'' : c'' = c'.borrow_from_other_chains.2 := by rw [heq2]
        have hcs3 : c''.chunk_size = c.chunk_size := by
          rw [hc'', borrow_from_other_chains_chunk_size, hcs2]
        rw [new_array_length, hcs3]

theorem rent_uninit_length {c : BufferChain α} (t : Nat) (zeroed : Bool)
    (nid : Nat) (hWF : c.WF) :
    (c.rent_or_create_uninitialized t zeroed nid).slice.array.slots.length
      = c.chunk_size := by
  unfold BufferChain.rent_or_create_uninitialized
  have hWF1 : (c.get_local t).WF := get_local_WF t hWF
  have hcs : (c.get_local t).chunk_size = c.chunk_size := get_local_chunk_size c t
  dsimp only
  split
  · show ((c.get_local t).new_uninitialized zeroed nid).1.slots.length = c.chunk_size
    rw [new_uninitialized_length, hcs]
  · split
    · next cached c' heq =>
      show cached.slots.length = c.chunk_size
      have := borrowLocal_some_length hWF1 (by rw [heq])
      rwa [hcs] at this
    · next c' heq =>
      have hc' : c' = ((c.get_local t).borrowLocal t).2 := by rw [heq]
      have hWF2 : c'.WF := hc' ▸ borrowLocal_WF t hWF1
      have hcs2 : c'.chunk_size = c.chunk_size := by
        rw [hc', borrowLocal_chunk_size, hcs]
      split
      · next cached c'' heq2 =>
        show cached.slots.length = c.chunk_size
        have := borrow_from_other_chains_some_length hWF2 (by rw [heq2])
        rwa [hcs2] at this
      · next c'' heq2 =>
        show (c''.new_uninitialized zeroed nid).1.slots.length = c.chunk_size
        have hc'' : c'' = c'.borrow_from_other_chains.2 := by rw [heq2]
        have hcs3 : c''.chunk_size = c.chunk_size := by
          rw [hc'', borrow_from_other_chains_chunk_size, hcs2]
        rw [new_uninitialized_length, hcs3]

theorem get_local_of_found {c : BufferChain α} {t : Nat} {st : Stash α}
    (h : regFind c.chains t = some (some st)) : c.get_local t = c := by
  unfold BufferChain.get_local
  rw [h]

theorem rent_with_initialized (c : BufferChain α) (t : Nat) (fab : Nat → α)
    (nid : Nat) : (c.rent_with t fab nid).slice.initialized = true := by
  unfold BufferChain.rent_with
  dsimp only
  split
  · rfl
  · split
    · rfl
    · split <;> rfl

theorem rent_uninit_initialized (c : BufferChain α) (t : Nat) (zeroed : Bool)
    (nid : Nat) :
    (c.rent_or_create_uninitialized t zeroed nid).slice.initialized = false := by
  unfold BufferChain.rent_or_create_uninitialized
  dsimp only
  split
  · rfl
  · split
    · rfl
    · split <;> rfl

theorem rent_with_slice_chain (c : BufferChain α) (t : Nat) (fab : Nat → α)
    (nid : Nat) : (c.rent_with t fab nid).slice.chain = c.chunk_size := by
  unfold BufferChain.rent_with
  have hcs : (c.get_local t).chunk_size = c.chunk_size := get_local_chunk_size c t
  dsimp only
  split
  · exact hcs
  · split
    · next cached c' heq => exact hcs
    · next c' heq =>
      have hc' : c' = ((c.get_local t).borrowLocal t).2 := by rw [heq]
      have hcs2 : c'.chunk_size = c.chunk_size := by
        rw [hc', borrowLocal_chunk_size, hcs]
      split
      · next cached c'' heq2 => exact hcs
      · next c'' heq2 =>
        show c''.chunk_size = c.chunk_size
        have hc'' : c'' = c'.borrow_from_other_chains.2 := by rw [heq2]
        rw [hc'', borrow_from_other_chains_chunk_size, hcs2]

theorem rent_uninit_slice_chain (c : BufferChain α) (t : Nat) (zeroed : Bool)
    (nid : Nat) :
    (c.rent_or_create_uninitialized t zeroed nid).slice.chain = c.chunk_size := by
  unfold BufferChain.rent_or_create_uninitialized
  have hcs : (c.get_local t).chunk_size = c.chunk_size := get_local_chunk_size c t
  dsimp only
  split
  · exact hcs
  · split
    · next cached c' heq => exact hcs
    · next c' heq =>
      have hc' : c' = ((c.get_local t).borrowLocal t).2 := by rw [heq]
      have hcs2 : c'.chunk_size = c.chunk_size := by
        rw [hc', borrowLocal_chunk_size, hcs]
      split
      · next cached c'' heq2 => exact hcs
      · next c'' heq2 =>
        show c''.chunk_size = c.chunk_size
        have hc'' : c'' = c'.borrow_from_other_chains.2 := by rw [heq2]
        rw [hc'', borrow_from_other_chains_chunk_size, hcs2]

/-- A rent against a chain whose hint counter is non-zero and whose acting
thread's stash is non-empty pops the most recently pushed local buffer:
no fresh allocation happens. -/
theorem rent_with_pop {c : BufferChain α} {t : Nat} {l : Stash α}
    {b : RawBuffer α} (hreg : regFind c.chains t = some (some (l ++ [b])))
    (hcnt : c.chunk_count ≠ 0) (fab : Nat → α) (nid : Nat) :
    (c.rent_with t fab nid).fresh = false ∧
      (c.rent_with t fab nid).slice.array = b ∧
      (c.rent_with t fab nid).nextId = nid := by
  have hloc : c.get_local t = c := get_local_of_found hreg
  have hb : c.borrowLocal t =
      (some b, { c with chains := regInsert c.chains t (some (l ++ [b]).dropLast),
                        chunk_count := c.chunk_count - 1 }) := by
    unfold BufferChain.borrowLocal
    rw [hreg]
    dsimp only
    rw [List.getLast?_concat]
  unfold BufferChain.rent_with
  rw [hloc]
  dsimp only
  rw [if_neg hcnt, hb]
  exact ⟨rfl, rfl, rfl⟩

/-! ### Destructor loop lemmas -/

theorem destructLoop_fst_length (l : List (Slot α)) (i : Nat) :
    (destructLoop l i).1.length = l.length := by
  induction l generalizing i with
  | nil => rfl
  | cons x rest ih => simp [destructLoop, ih]

theorem destructLoop_events (l : List (Slot α)) (i : Nat) :
    (destructLoop l i).2.1 = (List.range l.length).map (fun j => j + i) := by
  induction l generalizing i with
  | nil => rfl
  | cons x rest ih =>
    simp only [destructLoop, ih, List.length_cons, List.range_succ_eq_map,
      List.map_cons, List.map_map]
    congr 1
    · omega
    · apply List.map_congr_left
      intro j hj
      simp only [Function.comp_apply]
      omega

theorem destructLoop_events_zero (l : List (Slot α)) :
    (destructLoop l 0).2.1 = List.range l.length := by
  rw [destructLoop_events]
  simp

/-- Chain-level release, fully computed, for a non-sentinel buffer. -/
theorem dropSlice_eq (c : BufferChain α) (t : Nat) (s : BorrowingSlice α)
    (hne : ¬ s.array.slots.isEmpty) :
    c.dropSlice t s =
      ({ chunk_size := c.chunk_size,
         chunk_count := c.chunk_count + 1,
         chains := regInsert (c.get_local t).chains t
           (some (localStash c t ++
             [{ s.array with slots :=
                 (if s.initialized then destructLoop s.array.slots 0
                  else (s.array.slots, [], 0)).1 }])) },
       (if s.initialized then destructLoop s.array.slots 0
        else (s.array.slots, [], 0)).2.1,
       (if s.initialized then destructLoop s.array.slots 0
        else (s.array.slots, [], 0)).2.2) := by
  unfold BufferChain.dropSlice
  rw [if_neg hne]
  dsimp only
  rw [regFind_get_local_self]
  rw [get_local_chunk_size, get_local_chunk_count]

/-! ### Pool-level map lemmas -/

theorem setChain_keys (p : ArrayPool α) (k : Nat) (c : BufferChain α) :
    (p.setChain k c).chunk_map.map Prod.fst = p.chunk_map.map Prod.fst := by
  unfold ArrayPool.setChain
  rw [List.map_map]
  apply List.map_congr_left
  intro kv hkv
  by_cases h : kv.1 = k <;> simp [h]

theorem setChain_empty_chain (p : ArrayPool α) (k : Nat) (c : BufferChain α) :
    (p.setChain k c).empty_chain = p.empty_chain := rfl

/-- `find?` with a predicate that only inspects the key commutes with
updating the chain stored under a key. -/
theorem find?_setChain (p : ArrayPool α) (k : Nat) (c : BufferChain α)
    (q : Nat → Bool) :
    (p.setChain k c).chunk_map.find? (fun kv => q kv.1) =
      (p.chunk_map.find? (fun kv => q kv.1)).map
        (fun kv => if kv.1 = k then (k, c) else kv) := by
  unfold ArrayPool.setChain
  have hpred : ((fun kv => q kv.1) ∘ fun kv : Nat × BufferChain α =>
      if kv.1 = k then (k, c) else kv) = (fun kv : Nat × BufferChain α => q kv.1) := by
    funext kv
    by_cases h : kv.1 = k <;> simp [h, Function.comp]
  rw [List.find?_map, hpred]

/-- In a map with strictly increasing keys, `find?` by key equality
locates exactly the member entry carrying that key. -/
theorem find?_key_of_mem {l : List (Nat × BufferChain α)} {k : Nat}
    {c : BufferChain α} (hs : (l.map Prod.fst).Pairwise (· < ·))
    (hmem : (k, c) ∈ l) :
    l.find? (fun kv => decide (kv.1 = k)) = some (k, c) := by
  induction l with
  | nil => simp at hmem
  | cons kv rest ih =>
    rw [List.map_cons, List.pairwise_cons] at hs
    rcases List.mem_cons.1 hmem with rfl | hmem'
    · simp
    · have hne : kv.1 ≠ k := by
        intro hkk
        have : kv.1 < k := hs.1 k (List.mem_map_of_mem Prod.fst hmem')
        omega
      rw [List.find?_cons_of_neg _ (by simpa using hne)]
      exact ih hs.2 hmem'

/-- Routing on a sorted ladder: when some class can hold the request, the
linear scan returns the smallest such class. -/
theorem find?_sorted_ge {l : List (Nat × BufferChain α)} {K : Nat} :
    (∀ kv ∈ l, kv.1 < K) → l.find? (fun kv => decide (K ≤ kv.1)) = none := by
  intro h
  rw [List.find?_eq_none]
  intro kv hkv
  simpa using Nat.not_le.2 (h kv hkv)

theorem find?_sorted_min {l : List (Nat × BufferChain α)} {K : Nat}
    {kv : Nat × BufferChain α}
    (hs : (l.map Prod.fst).Pairwise (· < ·))
    (h : l.find? (fun kv => decide (K ≤ kv.1)) = some kv) :
    kv ∈ l ∧ K ≤ kv.1 ∧ ∀ kv' ∈ l, K ≤ kv'.1 → kv.1 ≤ kv'.1 := by
  induction l with
  | nil => simp at h
  | cons hd rest ih =>
    rw [List.map_cons, List.pairwise_cons] at hs
    by_cases hhd : K ≤ hd.1
    · rw [List.find?_cons_of_pos _ (by simpa using hhd)] at h
      obtain rfl : hd = kv := by injection h
      refine ⟨List.mem_cons_self _ _, hhd, ?_⟩
      intro kv' hkv' _
      rcases List.mem_cons.1 hkv' with rfl | hkv'
      · exact Nat.le_refl _
      · exact Nat.le_of_lt (hs.1 kv'.1 (List.mem_map_of_mem Prod.fst hkv'))
    · rw [List.find?_cons_of_neg _ (by simpa using hhd)] at h
      obtain ⟨hmem, hK, hmin⟩ := ih hs.2 h
      refine ⟨List.mem_cons_of_mem _ hmem, hK, ?_⟩
      intro kv' hkv' hK'
      rcases List.mem_cons.1 hkv' with rfl | hkv'
      · exact absurd hK' hhd
      · exact hmin kv' hkv' hK'

theorem find?_sorted_exists {l : List (Nat × BufferChain α)} {K : Nat}
    (hex : ∃ kv ∈ l, K ≤ kv.1) :
    ∃ kv, l.find? (fun kv => decide (K ≤ kv.1)) = some kv := by
  have : (l.find? (fun kv => decide (K ≤ kv.1))).isSome := by
    rw [List.find?_isSome]
    obtain ⟨kv, hkv, hK⟩ := hex
    exact ⟨kv, hkv, by simpa using hK⟩
  exact Option.isSome_iff_exists.1 this

/-! ### `classList` lemmas -/

theorem mem_classList {M n : Nat} :
    n ∈ classList M ↔ ∃ x, 3 ≤ x ∧ x < M ∧ n = 2 ^ x := by
  unfold classList
  simp only [List.mem_map, List.mem_range]
  constructor
  · rintro ⟨i, hi, rfl⟩
    exact ⟨i + 3, by omega, by omega, rfl⟩
  · rintro ⟨x, hx3, hxM, rfl⟩
    exact ⟨x - 3, by omega, by rw [Nat.sub_add_cancel hx3]⟩

theorem classList_pairwise (M : Nat) : (classList M).Pairwise (· < ·) := by
  unfold classList
  rw [List.pairwise_map]
  apply List.Pairwise.imp ?_ (List.pairwise_lt_range _)
  intro a b hab
  exact Nat.pow_lt_pow_right (by omega) (by omega)

theorem classList_head {M : Nat} (hM : 4 ≤ M) :
    (classList M).head? = some 8 := by
  unfold classList
  obtain ⟨m, hm⟩ : ∃ m, M - 3 = m + 1 := ⟨M - 4, by omega⟩
  rw [hm]
  rw [List.range_succ_eq_map]
  rfl

theorem classList_getLast {M : Nat} (hM : 4 ≤ M) :
    (classList M).getLast? = some (2 ^ (M - 1)) := by
  unfold classList
  obtain ⟨m, hm⟩ : ∃ m, M - 3 = m + 1 := ⟨M - 4, by omega⟩
  rw [hm, List.range_succ, List.map_append]
  simp only [List.map_cons, List.map_nil]
  rw [List.getLast?_concat]
  have : m + 3 = M - 1 := by omega
  rw [this]

theorem classList_le_max {M n : Nat} (hM : 4 ≤ M) (hn : n ∈ classList M) :
    n ≤ 2 ^ (M - 1) := by
  obtain ⟨x, hx3, hxM, rfl⟩ := mem_classList.1 hn
  exact Nat.pow_le_pow_right (by omega) (by omega)

theorem max_mem_classList {M : Nat} (hM : 4 ≤ M) :
    2 ^ (M - 1) ∈ classList M := by
  exact mem_classList.2 ⟨M - 1, by omega, by omega, rfl⟩

theorem classList_pos {M n : Nat} (hn : n ∈ classList M) : 0 < n := by
  obtain ⟨x, _, _, rfl⟩ := mem_classList.1 hn
  exact Nat.pos_pow_of_pos x (by omega)

/-! ### Pool-level rent unfolding -/

theorem pool_rent_with_ok {p : ArrayPool α} {K : Nat} {kv : Nat × BufferChain α}
    (hfind : p.get_chain K = some kv) (t : Nat) (fab : Nat → α) (nid : Nat) :
    p.rent_with t fab K nid =
      .ok ⟨(kv.2.rent_with t fab nid).slice,
           p.setChain kv.1 (kv.2.rent_with t fab nid).chain,
           (kv.2.rent_with t fab nid).nextId,
           (kv.2.rent_with t fab nid).fresh⟩ := by
  unfold ArrayPool.rent_with
  rw [hfind]

theorem pool_rent_with_err {p : ArrayPool α} {K : Nat}
    (hfind : p.get_chain K = none) (t : Nat) (fab : Nat → α) (nid : Nat) :
    p.rent_with t fab K nid = .error .MaxChunkSizeNotSufficient := by
  unfold ArrayPool.rent_with
  rw [hfind]

theorem pool_rent_uninit_ok {p : ArrayPool α} {K : Nat} {kv : Nat × BufferChain α}
    (hfind : p.get_chain K = some kv) (t : Nat) (zeroed : Bool) (nid : Nat) :
    p.rent_or_create_uninitialized t K zeroed nid =
      .ok ⟨(kv.2.rent_or_create_uninitialized t zeroed nid).slice,
           p.setChain kv.1 (kv.2.rent_or_create_uninitialized t zeroed nid).chain,
           (kv.2.rent_or_create_uninitialized t zeroed nid).nextId,
           (kv.2.rent_or_create_uninitialized t zeroed nid).fresh⟩ := by
  unfold ArrayPool.rent_or_create_uninitialized
  rw [hfind]

theorem pool_rent_uninit_err {p : ArrayPool α} {K : Nat}
    (hfind : p.get_chain K = none) (t : Nat) (zeroed : Bool) (nid : Nat) :
    p.rent_or_create_uninitialized t K zeroed nid =
      .error .MaxChunkSizeNotSufficient := by
  unfold ArrayPool.rent_or_create_uninitialized
  rw [hfind]

/-- Routing summary: for a well-formed pool carrying the `max_power = M`
ladder and a request `K` that some class can hold, `get_chain` selects a
chain whose class size is the smallest class at least `K` and whose state
is well-formed. -/
theorem get_chain_spec {p : ArrayPool α} {M K : Nat}
    (hkeys : p.chunk_map.map Prod.fst = classList M) (hWF : p.WF)
    (hex : ∃ n ∈ classList M, K ≤ n) :
    ∃ kv, p.get_chain K = some kv ∧ kv.1 = kv.2.chunk_size ∧ kv.2.WF ∧
      isSmallestClassGE M K kv.1 := by
  have hs : (p.chunk_map.map Prod.fst).Pairwise (· < ·) := hWF.1
  have hex' : ∃ kv ∈ p.chunk_map, K ≤ kv.1 := by
    obtain ⟨n, hn, hKn⟩ := hex
    rw [← hkeys] at hn
    obtain ⟨kv, hkv, hfst⟩ := List.mem_map.1 hn
    exact ⟨kv, hkv, by rw [hfst]; exact hKn⟩
  obtain ⟨kv, hfind⟩ := find?_sorted_exists hex'
  obtain ⟨hmem, hK, hmin⟩ := find?_sorted_min hs hfind
  obtain ⟨_, hsz, hcWF⟩ := hWF.2 kv hmem
  refine ⟨kv, hfind, hsz, hcWF, ?_, hK, ?_⟩
  · rw [← hkeys]
    exact List.mem_map_of_mem Prod.fst hmem
  · intro cls hcls hKcls
    rw [← hkeys] at hcls
    obtain ⟨kv', hkv', hfst⟩ := List.mem_map.1 hcls
    subst hfst
    exact hmin kv' hkv' hKcls

/-- When the request exceeds every class of the ladder, no chain serves
it. -/
theorem get_chain_none {p : ArrayPool α} {M K : Nat} (hM : 4 ≤ M)
    (hkeys : p.chunk_map.map Prod.fst = classList M)
    (hbig : 2 ^ (M - 1) < K) : p.get_chain K = none := by
  apply find?_sorted_ge
  intro kv hkv
  have hmem : kv.1 ∈ classList M := by
    rw [← hkeys]
    exact List.mem_map_of_mem Prod.fst hkv
  have := classList_le_max hM hmem
  omega

/-- C1: for a pool built with maximum exponent `M` and any requested
capacity `K ≥ 1`: when `K` fits the largest class `2 ^ (M - 1)`, both
`rent_with` and `rent_or_create_uninitialized` succeed with a handle whose
capacity is the smallest configured class that is at least `K` (a `K`
equal to a class size routes to that class); when `K` exceeds the largest
class, both fail with `MaxChunkSizeNotSufficient` (the design document's
`ClassTooSmall`). -/
theorem C1_rent_routes_to_smallest_class (α : Type) (M K : Nat)
    (p : ArrayPool α) (t : Nat) (fab : Nat → α) (zeroed : Bool) (nid : Nat)
    (hM : 4 ≤ M) (hM64 : M ≤ 64)
    (hkeys : p.chunk_map.map Prod.fst = classList M)
    (hWF : p.WF) (hK : 1 ≤ K) :
    (K ≤ 2 ^ (M - 1) →
      (∃ r, p.rent_with t fab K nid = .ok r ∧
         isSmallestClassGE M K r.slice.array.slots.length) ∧
      (∃ r, p.rent_or_create_uninitialized t K zeroed nid = .ok r ∧
         isSmallestClassGE M K r.slice.array.slots.length)) ∧
    (2 ^ (M - 1) < K →
      p.rent_with t fab K nid = .error .MaxChunkSizeNotSufficient ∧
      p.rent_or_create_uninitialized t K zeroed nid =
        .error .MaxChunkSizeNotSufficient) := by
  constructor
  · intro hfit
    obtain ⟨kv, hfind, hsz, hcWF, hsmall⟩ := get_chain_spec hkeys hWF
      ⟨2 ^ (M - 1), max_mem_classList hM, hfit⟩
    constructor
    · refine ⟨_, pool_rent_with_ok hfind t fab nid, ?_⟩
      show isSmallestClassGE M K (kv.2.rent_with t fab nid).slice.array.slots.length
      rw [rent_with_length t fab nid hcWF, ← hsz]
      exact hsmall
    · refine ⟨_, pool_rent_uninit_ok hfind t zeroed nid, ?_⟩
      show isSmallestClassGE M K
        (kv.2.rent_or_create_uninitialized t zeroed nid).slice.array.slots.length
      rw [rent_uninit_length t zeroed nid hcWF, ← hsz]
      exact hsmall
  · intro hbig
    have hnone := get_chain_none hM hkeys hbig
    exact ⟨pool_rent_with_err hnone t fab nid,
           pool_rent_uninit_err hnone t zeroed nid⟩

/-- The pool `with_max_power 5` builds: classes 8 and 16 plus the
degenerate zero-capacity chain. -/
def poolFive : ArrayPool Nat :=
  ⟨BufferChain.new Nat 0, [(8, BufferChain.new Nat 3), (16, BufferChain.new Nat 4)]⟩

/-- Witness for C1 at the specified scenario `maxExponent = 5`:
`rent(3)` yields capacity 8, `rent(9)` yields capacity 16, and `rent(17)`
fails with the class-too-small error. -/
theorem C1_witness :
    (4 ≤ 5 ∧ 5 ≤ 64 ∧ poolFive.chunk_map.map Prod.fst = classList 5 ∧
      poolFive.WF ∧ 1 ≤ 3 ∧ (3 : Nat) ≤ 2 ^ (5 - 1)) ∧
    (∃ r, poolFive.rent_with 0 (fun _ => 0) 3 0 = .ok r ∧
       isSmallestClassGE 5 3 r.slice.array.slots.length) ∧
    (∃ r, poolFive.rent_with 0 (fun _ => 0) 9 0 = .ok r ∧
       isSmallestClassGE 5 9 r.slice.array.slots.length) ∧
    poolFive.rent_with 0 (fun _ => 0) 17 0 =
      .error .MaxChunkSizeNotSufficient := by
  refine ⟨⟨by decide, by decide, by decide, ?wf, by decide, by decide⟩, ?r3, ?r9, ?r17⟩
  case wf => decide
  case r3 =>
    exact ((C1_rent_routes_to_smallest_class Nat 5 3 poolFive 0 (fun _ => 0)
      false 0 (by decide) (by decide) (by decide)
      (by decide) (by decide)).1 (by decide)).1
  case r9 =>
    exact ((C1_rent_routes_to_smallest_class Nat 5 9 poolFive 0 (fun _ => 0)
      false 0 (by decide) (by decide) (by decide)
      (by decide) (by decide)).1 (by decide)).1
  case r17 =>
    exact ((C1_rent_routes_to_smallest_class Nat 5 17 poolFive 0 (fun _ => 0)
      false 0 (by decide) (by decide) (by decide)
      (by decide) (by decide)).2 (by decide)).1

/-- Pool rent inversion: a successful `rent_with` went through some
selected chain. -/
theorem pool_rent_with_ok_inv {p : ArrayPool α} {t : Nat} {fab : Nat → α}
    {K nid : Nat} {r : PoolRent α} (h : p.rent_with t fab K nid = .ok r) :
    ∃ kv, p.get_chain K = some kv ∧ kv ∈ p.chunk_map ∧
      r.slice = (kv.2.rent_with t fab nid).slice := by
  unfold ArrayPool.rent_with at h
  cases hf : p.get_chain K with
  | none => rw [hf] at h; exact absurd h (by simp)
  | some kv =>
    rw [hf] at h
    refine ⟨kv, rfl, List.mem_of_find?_eq_some hf, ?_⟩
    obtain rfl : (⟨(kv.2.rent_with t fab nid).slice,
        p.setChain kv.1 (kv.2.rent_with t fab nid).chain,
        (kv.2.rent_with t fab nid).nextId,
        (kv.2.rent_with t fab nid).fresh⟩ : PoolRent α) = r := by injection h
    rfl

theorem pool_rent_uninit_ok_inv {p : ArrayPool α} {t : Nat} {zeroed : Bool}
    {K nid : Nat} {r : PoolRent α}
    (h : p.rent_or_create_uninitialized t K zeroed nid = .ok r) :
    ∃ kv, p.get_chain K = some kv ∧ kv ∈ p.chunk_map ∧
      r.slice = (kv.2.rent_or_create_uninitialized t zeroed nid).slice := by
  unfold ArrayPool.rent_or_create_uninitialized at h
  cases hf : p.get_chain K with
  | none => rw [hf] at h; exact absurd h (by simp)
  | some kv =>
    rw [hf] at h
    refine ⟨kv, rfl, List.mem_of_find?_eq_some hf, ?_⟩
    obtain rfl : (⟨(kv.2.rent_or_create_uninitialized t zeroed nid).slice,
        p.setChain kv.1 (kv.2.rent_or_create_uninitialized t zeroed nid).chain,
        (kv.2.rent_or_create_uninitialized t zeroed nid).nextId,
        (kv.2.rent_or_create_uninitialized t zeroed nid).fresh⟩ : PoolRent α) = r := by
      injection h
    rfl

/-- C5: construction with maximum exponent `M` (within the exact range of
the `usize` model) fails with `MaxPowerTooSmall` exactly when `M < 4`; on
success the pool carries exactly one chain per class size `2 ^ e` for
`3 ≤ e ≤ M - 1`, in ascending order with no duplicates, each chain keyed
by its own class size and starting empty, plus the degenerate chain for
the zero-capacity sentinel, so that `min_size` is 8 and `max_size` is
`2 ^ (M - 1)`. -/
theorem C5_construction (α : Type) (M : Nat) (hM64 : M ≤ 64) :
    (ArrayPool.with_max_power α M = .error .MaxPowerTooSmall ↔ M < 4) ∧
    (∀ p, ArrayPool.with_max_power α M = .ok p →
      p.chunk_map.map Prod.fst = classList M ∧
      (∀ n, n ∈ classList M ↔ ∃ x, 3 ≤ x ∧ x < M ∧ n = 2 ^ x) ∧
      (classList M).Pairwise (· < ·) ∧
      (∀ e ∈ p.chunk_map, e.2.chunk_size = e.1 ∧ e.2.chunk_count = 0 ∧
        e.2.chains = []) ∧
      p.min_size = some (2 ^ 3) ∧
      p.max_size = some (2 ^ (M - 1)) ∧
      p.empty_chain = BufferChain.new α 0) := by
  by_cases hM : M < 4
  · constructor
    · unfold ArrayPool.with_max_power
      rw [if_pos hM]
      simp [hM]
    · intro p hp
      unfold ArrayPool.with_max_power at hp
      rw [if_pos hM] at hp
      exact absurd hp (by simp)
  · have hM4 : 4 ≤ M := by omega
    have hok : ArrayPool.with_max_power α M =
        .ok { empty_chain := BufferChain.new α 0,
              chunk_map := (List.range (M - 3)).map
                (fun i => (2 ^ (i + 3), BufferChain.new α (i + 3))) } := by
      unfold ArrayPool.with_max_power
      rw [if_neg hM]
    constructor
    · rw [hok]
      simp [hM]
    · intro p hp
      rw [hok] at hp
      obtain rfl : ArrayPool.mk (BufferChain.new α 0)
          ((List.range (M - 3)).map
            (fun i => (2 ^ (i + 3), BufferChain.new α (i + 3)))) = p := by
        injection hp
      have hkeys : (((List.range (M - 3)).map
          (fun i => (2 ^ (i + 3), BufferChain.new α (i + 3)))).map Prod.fst)
            = classList M := by
        rw [List.map_map]
        unfold classList
        apply List.map_congr_left
        intro i hi
        rfl
      refine ⟨hkeys, fun n => mem_classList, classList_pairwise M, ?_, ?_, ?_, rfl⟩
      · intro e he
        obtain ⟨i, hi, rfl⟩ := List.mem_map.1 he
        exact ⟨rfl, rfl, rfl⟩
      · show (((List.range (M - 3)).map
          (fun i => (2 ^ (i + 3), BufferChain.new α (i + 3)))).head?).map Prod.fst
            = some (2 ^ 3)
        rw [← List.head?_map, hkeys]
        exact classList_head hM4
      · show (((List.range (M - 3)).map
          (fun i => (2 ^ (i + 3), BufferChain.new α (i + 3)))).getLast?).map Prod.fst
            = some (2 ^ (M - 1))
        rw [← List.getLast?_map, hkeys]
        exact classList_getLast hM4

/-- Witness for C5 at `maxExponent = 5`: construction succeeds and yields
exactly the classes 8 and 16 with `min_size` 8 and `max_size` 16; the
failure equivalence instantiates to the false proposition `5 < 4`. -/
theorem C5_witness :
    (5 : Nat) ≤ 64 ∧
    ((ArrayPool.with_max_power Nat 5 = .error .MaxPowerTooSmall ↔ 5 < 4) ∧
      (poolFive.chunk_map.map Prod.fst = classList 5 ∧
        poolFive.min_size = some (2 ^ 3) ∧
        poolFive.max_size = some (2 ^ (5 - 1)) ∧
        poolFive.empty_chain = BufferChain.new Nat 0)) := by
  have h := C5_construction Nat 5 (by decide)
  have h2 := h.2 poolFive rfl
  exact ⟨by decide, h.1, h2.1, h2.2.2.2.2.1, h2.2.2.2.2.2.1, h2.2.2.2.2.2.2⟩

/-- C10: a zero-capacity request is served by the smallest configured
class: both rent variants succeed with capacity `min_size = 8`, never the
zero-capacity sentinel and never an error; every successful rent of either
variant has positive capacity, so the sentinel handle only arises from
`rent_empty`, which yields capacity 0, marked live. -/
theorem C10_zero_request_routes_to_min (α : Type) (M : Nat) (p : ArrayPool α)
    (t : Nat) (fab : Nat → α) (zeroed : Bool) (nid : Nat)
    (hM : 4 ≤ M) (hkeys : p.chunk_map.map Prod.fst = classList M)
    (hWF : p.WF) :
    p.min_size = some 8 ∧
    (∃ r, p.rent_with t fab 0 nid = .ok r ∧
       r.slice.array.slots.length = 8) ∧
    (∃ r, p.rent_or_create_uninitialized t 0 zeroed nid = .ok r ∧
       r.slice.array.slots.length = 8) ∧
    (∀ K nid' r, p.rent_with t fab K nid' = .ok r →
       r.slice.array.slots.length ≠ 0) ∧
    (∀ K nid' r, p.rent_or_create_uninitialized t K zeroed nid' = .ok r →
       r.slice.array.slots.length ≠ 0) ∧
    (p.rent_empty).array.slots.length = 0 ∧
    (p.rent_empty).initialized = true := by
  have h8 : (8 : Nat) ∈ classList M := mem_classList.2 ⟨3, by omega, by omega, rfl⟩
  obtain ⟨kv, hfind, hsz, hcWF, hmem8, _, hmin⟩ := get_chain_spec (K := 0)
    hkeys hWF ⟨8, h8, by omega⟩
  have hk8 : kv.1 = 8 := by
    have h1 : kv.1 ≤ 8 := hmin 8 h8 (by omega)
    obtain ⟨x, hx3, _, hx⟩ := mem_classList.1 hmem8
    have h2 : 8 ≤ kv.1 := by
      rw [hx]
      calc (8 : Nat) = 2 ^ 3 := rfl
        _ ≤ 2 ^ x := Nat.pow_le_pow_right (by omega) hx3
    omega
  refine ⟨?_, ?_, ?_, ?_, ?_, rfl, rfl⟩
  · show (p.chunk_map.head?).map Prod.fst = some 8
    rw [← List.head?_map, hkeys]
    simpa using classList_head hM
  · refine ⟨_, pool_rent_with_ok hfind t fab nid, ?_⟩
    show (kv.2.rent_with t fab nid).slice.array.slots.length = 8
    rw [rent_with_length t fab nid hcWF, ← hsz, hk8]
  · refine ⟨_, pool_rent_uninit_ok hfind t zeroed nid, ?_⟩
    show (kv.2.rent_or_create_uninitialized t zeroed nid).slice.array.slots.length = 8
    rw [rent_uninit_length t zeroed nid hcWF, ← hsz, hk8]
  · intro K nid' r hr
    obtain ⟨kv', hfind', hmem', hslice⟩ := pool_rent_with_ok_inv hr
    obtain ⟨hpos, hsz', hcWF'⟩ := hWF.2 kv' hmem'
    rw [hslice, rent_with_length t fab nid' hcWF', ← hsz']
    omega
  · intro K nid' r hr
    obtain ⟨kv', hfind', hmem', hslice⟩ := pool_rent_uninit_ok_inv hr
    obtain ⟨hpos, hsz', hcWF'⟩ := hWF.2 kv' hmem'
    rw [hslice, rent_uninit_length t zeroed nid' hcWF', ← hsz']
    omega

/-- Witness for C10 on the concrete `maxExponent = 5` pool. -/
theorem C10_witness :
    ((4 : Nat) ≤ 5 ∧ poolFive.chunk_map.map Prod.fst = classList 5 ∧
      poolFive.WF) ∧
    (poolFive.min_size = some 8 ∧
      (∃ r, poolFive.rent_with 0 (fun _ => 0) 0 7 = .ok r ∧
         r.slice.array.slots.length = 8) ∧
      (∃ r, poolFive.rent_or_create_uninitialized 0 0 false 7 = .ok r ∧
         r.slice.array.slots.length = 8) ∧
      (∀ K nid' r, poolFive.rent_with 0 (fun _ => 0) K nid' = .ok r →
         r.slice.array.slots.length ≠ 0) ∧
      (∀ K nid' r, poolFive.rent_or_create_uninitialized 0 K false nid' = .ok r →
         r.slice.array.slots.length ≠ 0) ∧
      (poolFive.rent_empty).array.slots.length = 0 ∧
      (poolFive.rent_empty).initialized = true) :=
  ⟨⟨by decide, by decide, by decide⟩,
   C10_zero_request_routes_to_min Nat 5 poolFive 0 (fun _ => 0) false 7
     (by decide) (by decide) (by decide)⟩

theorem borrowLocal_none_eq {c : BufferChain α} {t : Nat}
    (h : (c.borrowLocal t).1 = none) : (c.borrowLocal t).2 = c := by
  unfold BufferChain.borrowLocal at h ⊢
  cases hf : regFind c.chains t with
  | none => rfl
  | some v =>
    cases v with
    | none => rfl
    | some st =>
      cases hl : st.getLast? with
      | none => simp [hl]
      | some b => rw [hf] at h; simp [hl] at h

theorem borrowLocal_some_src {c : BufferChain α} {t : Nat} {b : RawBuffer α}
    (h : (c.borrowLocal t).1 = some b) :
    ∃ st, regFind c.chains t = some (some st) ∧ st.getLast? = some b := by
  unfold BufferChain.borrowLocal at h
  cases hf : regFind c.chains t with
  | none => rw [hf] at h; simp at h
  | some v =>
    cases v with
    | none => rw [hf] at h; simp at h
    | some st =>
      rw [hf] at h
      cases hl : st.getLast? with
      | none => simp [hl] at h
      | some b' =>
        simp only [hl] at h
        have hb : b' = b := by simpa using h
        exact ⟨st, rfl, hb ▸ hl⟩

theorem borrow_from_other_chains_some_src {c : BufferChain α} {b : RawBuffer α}
    (h : (c.borrow_from_other_chains).1 = some b) :
    ∃ k st, (k, some st) ∈ c.chains ∧ st.getLast? = some b := by
  unfold BufferChain.borrow_from_other_chains at h
  cases hs : scanChains c.chains with
  | mk fst snd =>
    cases fst with
    | none => rw [hs] at h; simp at h
    | some b' =>
      rw [hs] at h
      simp only [] at h
      have hb : b' = b := by simpa using h
      subst hb
      exact scanChains_some_origin (by rw [hs])

/-- Case analysis on the four paths of `BufferChain::rent_with`: either a
fresh buffer was allocated and the fabricator wrote every slot, or an
already-parked buffer was returned untouched. -/
theorem rent_with_dichotomy (c : BufferChain α) (t : Nat) (fab : Nat → α)
    (nid : Nat) :
    ((c.rent_with t fab nid).fresh = true ∧
      (c.rent_with t fab nid).slice.array.slots =
        (List.range c.chunk_size).map (fun i => Slot.live (fab i))) ∨
    ((c.rent_with t fab nid).fresh = false ∧
      (c.rent_with t fab nid).nextId = nid ∧
      ∃ k st, (k, some st) ∈ (c.get_local t).chains ∧
        st.getLast? = some (c.rent_with t fab nid).slice.array) := by
  unfold BufferChain.rent_with
  dsimp only
  split
  · left
    refine ⟨rfl, ?_⟩
    show ((c.get_local t).new_array fab nid).1.slots =
      (List.range c.chunk_size).map (fun i => Slot.live (fab i))
    unfold BufferChain.new_array
    dsimp only
    rw [get_local_chunk_size]
  · split
    · next cached c' heq =>
      right
      refine ⟨rfl, rfl, ?_⟩
      obtain ⟨st, hreg, hlast⟩ := borrowLocal_some_src (by rw [heq])
      exact ⟨t, st, regFind_mem hreg, hlast⟩
    · next c' heq =>
      split
      · next cached c'' heq2 =>
        right
        refine ⟨rfl, rfl, ?_⟩
        have hc' : c' = c.get_local t := by
          have h1 : ((c.get_local t).borrowLocal t).1 = none := by rw [heq]
          have h2 := borrowLocal_none_eq h1
          rw [← h2, heq]
        obtain ⟨k, st, hmem, hlast⟩ :=
          borrow_from_other_chains_some_src (c := c') (by rw [heq2])
        exact ⟨k, st, hc' ▸ hmem, hlast⟩
      · next c'' heq2 =>
        left
        refine ⟨rfl, ?_⟩
        show (c''.new_array fab nid).1.slots =
          (List.range c.chunk_size).map (fun i => Slot.live (fab i))
        have hc' : c' = c.get_local t := by
          have h1 : ((c.get_local t).borrowLocal t).1 = none := by rw [heq]
          have h2 := borrowLocal_none_eq h1
          rw [← h2, heq]
        have hcs2 : c''.chunk_size = c.chunk_size := by
          have hc'' : c'' = c'.borrow_from_other_chains.2 := by rw [heq2]
          rw [hc'', borrow_from_other_chains_chunk_size, hc',
            get_local_chunk_size]
        unfold BufferChain.new_array
        dsimp only
        rw [hcs2]

/-- C9: a fabricator-mode rent always hands out a handle marked live, but
runs the fabricator only on the fresh-allocation path, writing every slot
of the class size exactly once (slot `i` receives the `i`-th fabricated
value); when the buffer is reused from some thread's stash, no fabricator
call and no allocation happens, and the buffer is handed out exactly as it
was parked at its previous release — still marked live. -/
theorem C9_rent_marks_live_fabricates_only_fresh (α : Type) (c : BufferChain α)
    (t : Nat) (fab : Nat → α) (nid : Nat) :
    (c.rent_with t fab nid).slice.initialized = true ∧
    ((c.rent_with t fab nid).fresh = true →
      (c.rent_with t fab nid).slice.array.slots =
        (List.range c.chunk_size).map (fun i => Slot.live (fab i))) ∧
    ((c.rent_with t fab nid).fresh = false →
      (c.rent_with t fab nid).nextId = nid ∧
      ∃ k st, (k, some st) ∈ (c.get_local t).chains ∧
        st.getLast? = some (c.rent_with t fab nid).slice.array) := by
  refine ⟨rent_with_initialized c t fab nid, ?_, ?_⟩
  · intro hfresh
    rcases rent_with_dichotomy c t fab nid with ⟨_, hslots⟩ | ⟨hf, _⟩
    · exact hslots
    · rw [hfresh] at hf
      exact absurd hf (by simp)
  · intro hfresh
    rcases rent_with_dichotomy c t fab nid with ⟨hf, _⟩ | ⟨_, hrest⟩
    · rw [hfresh] at hf
      exact absurd hf (by simp)
    · exact hrest

/-- A chain holding one parked buffer of destructed slots, as left behind
by a release on thread 0. -/
def chainReuse : BufferChain Nat :=
  ⟨8, 1, [(0, some [⟨5, false, List.replicate 8 Slot.dropped⟩])]⟩

/-- Witness for C9: a rent against an empty fresh chain fabricates every
slot; a rent against a chain with a parked buffer returns that exact
buffer — destructed contents and all — marked live, with no allocation. -/
theorem C9_witness :
    ((BufferChain.new Nat 3).rent_with 0 (fun i => i + 10) 0).slice.initialized
        = true ∧
    ((BufferChain.new Nat 3).rent_with 0 (fun i => i + 10) 0).slice.array.slots
        = (List.range (BufferChain.new Nat 3).chunk_size).map
            (fun i => Slot.live (i + 10)) ∧
    (chainReuse.rent_with 0 (fun i => i + 10) 0).slice.initialized = true ∧
    ((chainReuse.rent_with 0 (fun i => i + 10) 0).nextId = 0 ∧
      ∃ k st, (k, some st) ∈ (chainReuse.get_local 0).chains ∧
        st.getLast? = some (chainReuse.rent_with 0 (fun i => i + 10) 0).slice.array) :=
  ⟨(C9_rent_marks_live_fabricates_only_fresh Nat (BufferChain.new Nat 3) 0
      (fun i => i + 10) 0).1,
   (C9_rent_marks_live_fabricates_only_fresh Nat (BufferChain.new Nat 3) 0
      (fun i => i + 10) 0).2.1 (by decide),
   (C9_rent_marks_live_fabricates_only_fresh Nat chainReuse 0
      (fun i => i + 10) 0).1,
   (C9_rent_marks_live_fabricates_only_fresh Nat chainReuse 0
      (fun i => i + 10) 0).2.2 (by decide)⟩

/-- The raw buffer as it is pushed back to a stash by a release: slots
destructed first when the handle was live. -/
def releasedBuffer (s : BorrowingSlice α) : RawBuffer α :=
  { s.array with slots :=
      (if s.initialized then destructLoop s.array.slots 0
       else (s.array.slots, [], 0)).1 }

theorem releasedBuffer_length (s : BorrowingSlice α) :
    (releasedBuffer s).slots.length = s.array.slots.length := by
  unfold releasedBuffer
  by_cases hinit : s.initialized
  · rw [if_pos hinit]
    exact destructLoop_fst_length s.array.slots 0
  · rw [if_neg hinit]

/-- Pool-level release of a non-sentinel handle, fully computed. -/
theorem pool_dropSlice_char {p : ArrayPool α} {t : Nat} {s : BorrowingSlice α}
    {kv : Nat × BufferChain α} (hne : s.array.slots ≠ [])
    (hfind : p.chunk_map.find? (fun e => decide (e.1 = s.chain)) = some kv) :
    p.dropSlice t s =
      (p.setChain kv.1
        { chunk_size := kv.2.chunk_size,
          chunk_count := kv.2.chunk_count + 1,
          chains := regInsert (kv.2.get_local t).chains t
            (some (localStash kv.2 t ++ [releasedBuffer s])) },
       if s.initialized then List.range s.array.slots.length else [],
       (if s.initialized then destructLoop s.array.slots 0
        else (s.array.slots, [], 0)).2.2) := by
  have hne' : ¬ s.array.slots.isEmpty := by simpa using hne
  unfold ArrayPool.dropSlice
  rw [if_neg hne', hfind]
  dsimp only
  rw [dropSlice_eq kv.2 t s hne']
  unfold releasedBuffer
  cases hinit : s.initialized with
  | true => simp [hinit, destructLoop_events_zero]
  | false => simp [hinit]

/-- C6: on release of a handle — for the zero-capacity sentinel nothing
changes at all; otherwise, when the handle is marked live every slot
`0 .. capacity` is destructed in increasing index order (event list
`List.range capacity`) and when it is not, no destructor runs; in both
cases the raw buffer (its id and slot count intact) is appended to the
releasing thread's own stash for the handle's chain — the stash being
created if that thread has none — and the chain-wide hint counter grows by
exactly one. -/
theorem C6_release_destructs_then_stashes (α : Type) (p : ArrayPool α)
    (t : Nat) (s : BorrowingSlice α) :
    (s.array.slots = [] → p.dropSlice t s = (p, [], 0)) ∧
    (∀ kv : Nat × BufferChain α, s.array.slots ≠ [] →
      p.chunk_map.find? (fun e => decide (e.1 = s.chain)) = some kv →
      ∃ store dd,
        p.dropSlice t s =
          (p.setChain kv.1
            { chunk_size := kv.2.chunk_size,
              chunk_count := kv.2.chunk_count + 1,
              chains := regInsert (kv.2.get_local t).chains t
                (some (localStash kv.2 t ++ [store])) },
           if s.initialized then List.range s.array.slots.length else [],
           dd) ∧
        store.slots.length = s.array.slots.length ∧
        store.id = s.array.id ∧
        (s.initialized = false → dd = 0)) := by
  constructor
  · intro hnil
    unfold ArrayPool.dropSlice
    rw [if_pos (by simp [hnil])]
  · intro kv hne hfind
    refine ⟨releasedBuffer s,
      (if s.initialized then destructLoop s.array.slots 0
       else (s.array.slots, [], 0)).2.2,
      pool_dropSlice_char hne hfind, releasedBuffer_length s, rfl, ?_⟩
    intro hinit
    rw [hinit]
    rfl

/-- Witness for C6: releasing `rent_empty`'s sentinel handle on the
concrete pool changes nothing; releasing a live capacity-8 handle
destructs slots 0 through 7 in order, parks the buffer in thread 0's stash
of the class-8 chain, and bumps that chain's counter from 0 to 1. -/
theorem C6_witness :
    (poolFive.dropSlice 0 (poolFive.rent_empty) = (poolFive, [], 0)) ∧
    (∃ store dd,
      poolFive.dropSlice 0
        ⟨⟨41, false, (List.range 8).map (fun i => Slot.live i)⟩, 8, true⟩ =
        (poolFive.setChain 8
          { chunk_size := (BufferChain.new Nat 3).chunk_size,
            chunk_count := (BufferChain.new Nat 3).chunk_count + 1,
            chains := regInsert ((BufferChain.new Nat 3).get_local 0).chains 0
              (some (localStash (BufferChain.new Nat 3) 0 ++ [store])) },
         if (true : Bool) then List.range ((List.range 8).map
            (fun i => Slot.live (α := Nat) i)).length else [],
         dd) ∧
      store.slots.length = ((List.range 8).map
        (fun i => Slot.live (α := Nat) i)).length ∧
      store.id = 41 ∧
      ((true : Bool) = false → dd = 0)) := by
  constructor
  · exact (C6_release_destructs_then_stashes Nat poolFive 0
      (poolFive.rent_empty)).1 rfl
  · obtain ⟨store, dd, h1, h2, h3, h4⟩ :=
      (C6_release_destructs_then_stashes Nat poolFive 0
        ⟨⟨41, false, (List.range 8).map (fun i => Slot.live i)⟩, 8, true⟩).2
        (8, BufferChain.new Nat 3) (by decide) (by decide)
    exact ⟨store, dd, h1, h2, h3, h4⟩

/-- A registry entry whose weak reference still upgrades. -/
def entryAlive (e : Nat × Option (Stash α)) : Bool :=
  e.2.isSome

/-- A registry entry whose weak reference upgrades and whose stash has a
buffer to pop. -/
def entryHasBuffer (e : Nat × Option (Stash α)) : Bool :=
  match e.2 with
  | some st => !st.isEmpty
  | none => false

theorem scanChains_win {pre : Registry α} {k : Nat} {st : Stash α}
    (post : Registry α) (hst : st ≠ [])
    (hpre : ∀ e ∈ pre, entryHasBuffer e = false) :
    ∃ b, st.getLast? = some b ∧
      scanChains (pre ++ (k, some st) :: post) =
        (some b, pre.filter entryAlive ++ (k, some st.dropLast) :: post) := by
  induction pre with
  | nil =>
    obtain ⟨b, hb⟩ := Option.isSome_iff_exists.1 (List.getLast?_isSome.2 hst)
    refine ⟨b, hb, ?_⟩
    simp only [List.nil_append, scanChains, hb, List.filter_nil]
  | cons e rest ih =>
    obtain ⟨b, hb, hrest⟩ := ih (fun e' he' => hpre e' (List.mem_cons_of_mem _ he'))
    refine ⟨b, hb, ?_⟩
    have hehd := hpre e (List.mem_cons_self _ _)
    obtain ⟨ke, ve⟩ := e
    cases ve with
    | none =>
      simp [scanChains, entryAlive, hrest]
    | some ste =>
      have hempty : ste = [] := by
        simpa [entryHasBuffer] using hehd
      subst hempty
      simp [scanChains, entryAlive, hrest]

theorem scanChains_nowin {reg : Registry α}
    (hreg : ∀ e ∈ reg, entryHasBuffer e = false) :
    scanChains reg = (none, reg.filter entryAlive) := by
  induction reg with
  | nil => rfl
  | cons e rest ih =>
    have hrest := ih (fun e' he' => hreg e' (List.mem_cons_of_mem _ he'))
    have hehd := hreg e (List.mem_cons_self _ _)
    obtain ⟨ke, ve⟩ := e
    cases ve with
    | none => simp [scanChains, entryAlive, hrest]
    | some ste =>
      have hempty : ste = [] := by
        simpa [entryHasBuffer] using hehd
      subst hempty
      simp [scanChains, entryAlive, hrest]

/-- C8: the steal scan walks the registry in ascending thread-key order
(every entry before the winner has a smaller key); the first entry that
upgrades and has a non-empty stash wins — its most recent buffer is popped
and the scan stops, leaving every later entry untouched; of the visited
entries, exactly those whose weak reference failed to upgrade are purged,
whether or not a buffer was found, while visited alive-but-empty entries
are kept. -/
theorem C8_steal_scan_order_and_purge (α : Type) (c : BufferChain α)
    (hsort : (c.chains.map Prod.fst).Pairwise (· < ·)) :
    (∀ pre k st post, c.chains = pre ++ (k, some st) :: post → st ≠ [] →
      (∀ e ∈ pre, entryHasBuffer e = false) →
      (∀ e ∈ pre, e.1 < k) ∧
      ∃ b, st.getLast? = some b ∧
        c.borrow_from_other_chains =
          (some b,
           { chunk_size := c.chunk_size,
             chunk_count := c.chunk_count - 1,
             chains := pre.filter entryAlive ++ (k, some st.dropLast) :: post })) ∧
    ((∀ e ∈ c.chains, entryHasBuffer e = false) →
      c.borrow_from_other_chains =
        (none,
         { chunk_size := c.chunk_size,
           chunk_count := c.chunk_count,
           chains := c.chains.filter entryAlive })) := by
  constructor
  · intro pre k st post hdecomp hst hpre
    constructor
    · intro e he
      rw [hdecomp, List.map_append] at hsort
      have := (List.pairwise_append.1 hsort).2.2
      exact this e.1 (List.mem_map_of_mem Prod.fst he) k (by simp)
    · obtain ⟨b, hb, hscan⟩ := scanChains_win post hst hpre
      refine ⟨b, hb, ?_⟩
      unfold BufferChain.borrow_from_other_chains
      rw [hdecomp, hscan]
  · intro hreg
    unfold BufferChain.borrow_from_other_chains
    rw [scanChains_nowin hreg]

/-- A chain whose registry has, in key order: a dead entry, an alive empty
stash, an alive stash holding one buffer, a dead entry, and an alive stash
holding another buffer. -/
def chainScan : BufferChain Nat :=
  ⟨8, 2, [(1, none), (2, some []), (3, some [⟨21, false, []⟩]),
          (4, none), (5, some [⟨22, false, []⟩])]⟩

/-- Witness for C8: on the concrete registry the scan pops the buffer of
thread 3, removes the dead entry with key 1, keeps the empty stash of
thread 2, and leaves the entries after the winner — dead entry 4
included — untouched; with every stash empty the scan finds nothing and
purges both dead entries. -/
theorem C8_witness :
    ((∀ e ∈ [((1 : Nat), (none : Option (Stash Nat))), (2, some [])],
        entryHasBuffer e = false) ∧
      ((∀ e ∈ [((1 : Nat), (none : Option (Stash Nat))), (2, some [])],
          e.1 < 3) ∧
        ∃ b, ([(⟨21, false, []⟩ : RawBuffer Nat)]).getLast? = some b ∧
          chainScan.borrow_from_other_chains =
            (some b,
             { chunk_size := chainScan.chunk_size,
               chunk_count := chainScan.chunk_count - 1,
               chains := [((1 : Nat), (none : Option (Stash Nat))),
                   (2, some [])].filter entryAlive ++
                 (3, some ([(⟨21, false, []⟩ : RawBuffer Nat)]).dropLast) ::
                   [(4, none), (5, some [⟨22, false, []⟩])] }))) ∧
    ((BufferChain.mk 8 2 [((1 : Nat), (none : Option (Stash Nat))), (2, some []),
        (4, none)]).borrow_from_other_chains =
      (none,
       { chunk_size := 8, chunk_count := 2,
         chains := [((1 : Nat), (none : Option (Stash Nat))), (2, some []),
           (4, none)].filter entryAlive })) := by
  refine ⟨⟨by decide, ?_⟩, ?_⟩
  · exact (C8_steal_scan_order_and_purge Nat chainScan (by decide)).1
      [(1, none), (2, some [])] 3 [⟨21, false, []⟩]
      [(4, none), (5, some [⟨22, false, []⟩])] (by decide) (by decide) (by decide)
  · exact (C8_steal_scan_order_and_purge Nat
      (BufferChain.mk 8 2 [(1, none), (2, some []), (4, none)])
      (by decide)).2 (by decide)

/-- Full inversion of a successful pool-level rent. -/
theorem pool_rent_with_ok_full {p : ArrayPool α} {t : Nat} {fab : Nat → α}
    {K nid : Nat} {r : PoolRent α} (h : p.rent_with t fab K nid = .ok r) :
    ∃ kv, p.get_chain K = some kv ∧ kv ∈ p.chunk_map ∧
      r = ⟨(kv.2.rent_with t fab nid).slice,
           p.setChain kv.1 (kv.2.rent_with t fab nid).chain,
           (kv.2.rent_with t fab nid).nextId,
           (kv.2.rent_with t fab nid).fresh⟩ := by
  unfold ArrayPool.rent_with at h
  cases hf : p.get_chain K with
  | none => rw [hf] at h; exact absurd h (by simp)
  | some kv =>
    rw [hf] at h
    refine ⟨kv, rfl, List.mem_of_find?_eq_some hf, ?_⟩
    have := h
    injection this with h'
    exact h'.symm

/-- C7: in a single-threaded run, renting for capacity `K`, releasing the
handle, and renting for `K` again returns a buffer of identical capacity
without a fresh allocation; the release itself makes the chain-wide hint
counter non-zero, which is what steers the second rent to the stash. -/
theorem C7_rent_release_rent_reuses (α : Type) (p : ArrayPool α)
    (t K nid : Nat) (fab fab₂ : Nat → α) (r₁ : PoolRent α)
    (hWF : p.WF) (hr₁ : p.rent_with t fab K nid = .ok r₁) :
    ∃ p₂ evs dd r₂,
      r₁.pool.dropSlice t r₁.slice = (p₂, evs, dd) ∧
      p₂.rent_with t fab₂ K r₁.nextId = .ok r₂ ∧
      r₂.fresh = false ∧
      r₂.slice.array.slots.length = r₁.slice.array.slots.length ∧
      ∃ kc, p₂.get_chain K = some kc ∧ 0 < kc.2.chunk_count := by
  obtain ⟨kv, hfind, hmem, hr⟩ := pool_rent_with_ok_full hr₁
  obtain ⟨hpos, hsz, hcWF⟩ := hWF.2 kv hmem
  have hslice : r₁.slice = (kv.2.rent_with t fab nid).slice := by rw [hr]
  have hpool : r₁.pool = p.setChain kv.1 (kv.2.rent_with t fab nid).chain := by
    rw [hr]
  have hlen : r₁.slice.array.slots.length = kv.2.chunk_size := by
    rw [hslice]
    exact rent_with_length t fab nid hcWF
  have hchain : r₁.slice.chain = kv.1 := by
    rw [hslice, rent_with_slice_chain, hsz]
  have hne : r₁.slice.array.slots ≠ [] := by
    intro hnil
    rw [hnil] at hlen
    simp at hlen
    omega
  -- locate the handle's chain inside the post-rent pool
  have hfindk : p.chunk_map.find? (fun e => decide (e.1 = kv.1)) = some kv := by
    exact find?_key_of_mem hWF.1 hmem
  have hfind2 : r₁.pool.chunk_map.find? (fun e => decide (e.1 = r₁.slice.chain))
      = some (kv.1, (kv.2.rent_with t fab nid).chain) := by
    rw [hpool, hchain]
    rw [find?_setChain p kv.1 (kv.2.rent_with t fab nid).chain
      (fun n => decide (n = kv.1))]
    rw [hfindk]
    simp
  -- the release, fully computed
  set c₂ : BufferChain α :=
    { chunk_size := (kv.2.rent_with t fab nid).chain.chunk_size,
      chunk_count := (kv.2.rent_with t fab nid).chain.chunk_count + 1,
      chains := regInsert ((kv.2.rent_with t fab nid).chain.get_local t).chains t
        (some (localStash (kv.2.rent_with t fab nid).chain t ++
          [releasedBuffer r₁.slice])) } with hc₂
  have hdrop : r₁.pool.dropSlice t r₁.slice =
      (r₁.pool.setChain kv.1 c₂,
       if r₁.slice.initialized then List.range r₁.slice.array.slots.length else [],
       (if r₁.slice.initialized then destructLoop r₁.slice.array.slots 0
        else (r₁.slice.array.slots, [], 0)).2.2) := by
    exact pool_dropSlice_char hne hfind2
  -- the second rent routes to the same class and pops the parked buffer
  have hfind3 : (r₁.pool.setChain kv.1 c₂).get_chain K = some (kv.1, c₂) := by
    show (r₁.pool.setChain kv.1 c₂).chunk_map.find?
      (fun e => decide (K ≤ e.1)) = some (kv.1, c₂)
    rw [find?_setChain (r₁.pool) kv.1 c₂ (fun n => decide (K ≤ n))]
    have : r₁.pool.chunk_map.find? (fun e => decide (K ≤ e.1))
        = some (kv.1, (kv.2.rent_with t fab nid).chain) := by
      rw [hpool]
      rw [find?_setChain p kv.1 (kv.2.rent_with t fab nid).chain
        (fun n => decide (K ≤ n))]
      rw [show p.chunk_map.find? (fun e => decide (K ≤ e.1)) = some kv from hfind]
      simp
    rw [this]
    simp
  have hcnt : c₂.chunk_count ≠ 0 := by
    rw [hc₂]
    simp
  have hreg : regFind c₂.chains t =
      some (some (localStash (kv.2.rent_with t fab nid).chain t ++
        [releasedBuffer r₁.slice])) := by
    rw [hc₂]
    exact regFind_regInsert_self _ _ _
  obtain ⟨hfresh2, harr2, hnid2⟩ := rent_with_pop hreg hcnt fab₂ r₁.nextId
  refine ⟨r₁.pool.setChain kv.1 c₂, _, _, _, hdrop,
    pool_rent_with_ok hfind3 t fab₂ r₁.nextId, hfresh2, ?_, ⟨kv.1, c₂⟩, hfind3, ?_⟩
  · show (c₂.rent_with t fab₂ r₁.nextId).slice.array.slots.length
      = r₁.slice.array.slots.length
    rw [harr2, releasedBuffer_length]
  · rw [hc₂]
    simp

/-- The state of a first rent of capacity request 5 on the fresh
`maxExponent = 5` pool: a freshly fabricated capacity-8 buffer and the
pool with thread 0's (empty) stash registered on the class-8 chain. -/
def c7r₁ : PoolRent Nat :=
  ⟨⟨⟨0, false, (List.range 8).map (fun _ => Slot.live 7)⟩, 8, true⟩,
   ⟨BufferChain.new Nat 0,
    [(8, ⟨8, 0, [(0, some [])]⟩), (16, BufferChain.new Nat 4)]⟩,
   1, true⟩

/-- Witness for C7: rent capacity 5 from the fresh pool, release, rent
capacity 5 again — the second rent reuses the released buffer (capacity 8,
no fresh allocation) and the hint counter it reads is positive. -/
theorem C7_witness :
    (poolFive.WF ∧ poolFive.rent_with 0 (fun _ => 7) 5 0 = .ok c7r₁) ∧
    (∃ p₂ evs dd r₂,
      c7r₁.pool.dropSlice 0 c7r₁.slice = (p₂, evs, dd) ∧
      p₂.rent_with 0 (fun _ => 9) 5 c7r₁.nextId = .ok r₂ ∧
      r₂.fresh = false ∧
      r₂.slice.array.slots.length = c7r₁.slice.array.slots.length ∧
      ∃ kc, p₂.get_chain 5 = some kc ∧ 0 < kc.2.chunk_count) :=
  ⟨⟨by decide, by rfl⟩,
   C7_rent_release_rent_reuses Nat poolFive 0 5 0 (fun _ => 7) (fun _ => 9)
     c7r₁ (by decide) (by rfl)⟩

/-- Release with the handle marked not-live runs no destructor at all. -/
theorem dropSlice_not_init {c : BufferChain α} {t : Nat}
    {s : BorrowingSlice α} (hinit : s.initialized = false) :
    (c.dropSlice t s).2.1 = [] ∧ (c.dropSlice t s).2.2 = 0 := by
  unfold BufferChain.dropSlice
  by_cases hemp : s.array.slots.isEmpty
  · rw [if_pos hemp]
    exact ⟨rfl, rfl⟩
  · rw [if_neg hemp]
    dsimp only
    rw [hinit]
    exact ⟨rfl, rfl⟩

theorem pool_dropSlice_not_init {p : ArrayPool α} {t : Nat}
    {s : BorrowingSlice α} (hinit : s.initialized = false) :
    (p.dropSlice t s).2.1 = [] ∧ (p.dropSlice t s).2.2 = 0 := by
  unfold ArrayPool.dropSlice
  by_cases hemp : s.array.slots.isEmpty
  · rw [if_pos hemp]
    exact ⟨rfl, rfl⟩
  · rw [if_neg hemp]
    cases hf : p.chunk_map.find? (fun kv => decide (kv.1 = s.chain)) with
    | none =>
      dsimp only
      exact dropSlice_not_init hinit
    | some kv =>
      dsimp only
      exact dropSlice_not_init hinit

/-- C4: `expand_buffer` requests twice the handle's capacity,
uninitialized; it succeeds exactly when some configured class holds the
doubled size, returning a handle whose capacity is the smallest such class
and whose first `c` slots are the original `c` slots in order (moved by
swap); the old handle is marked not-live before its release, so that
release destructs nothing — no destructor events and no double
destruction; with no class large enough it fails with the class-too-small
error. -/
theorem C4_expand_doubles_and_preserves (α : Type) (M : Nat) (p : ArrayPool α)
    (t : Nat) (s : BorrowingSlice α) (nid : Nat)
    (hM : 4 ≤ M) (hkeys : p.chunk_map.map Prod.fst = classList M)
    (hWF : p.WF) :
    ((∃ cls ∈ classList M, 2 * s.array.slots.length ≤ cls) →
      ∃ out, p.expand_buffer t s nid = .ok out ∧
        out.1.slice.array.slots.take s.array.slots.length = s.array.slots ∧
        isSmallestClassGE M (2 * s.array.slots.length)
          out.1.slice.array.slots.length ∧
        out.2.1 = [] ∧ out.2.2 = 0) ∧
    ((∀ cls ∈ classList M, cls < 2 * s.array.slots.length) →
      p.expand_buffer t s nid = .error .MaxChunkSizeNotSufficient) := by
  constructor
  · intro hex
    obtain ⟨kv, hfind, hsz, hcWF, hsmem, hsge, hsmin⟩ :=
      get_chain_spec (K := s.array.slots.length * 2) hkeys hWF
        (by obtain ⟨cls, hcls, hle⟩ := hex; exact ⟨cls, hcls, by omega⟩)
    have hrent := pool_rent_uninit_ok hfind t false nid
    have hrlen : (kv.2.rent_or_create_uninitialized t false nid).slice.array.slots.length
        = kv.1 := by
      rw [rent_uninit_length t false nid hcWF, hsz]
    unfold ArrayPool.expand_buffer
    dsimp only
    rw [hrent]
    dsimp only
    refine ⟨_, rfl, ?_, ?_, ?_⟩
    · show ((s.array.slots.take s.array.slots.length ++
        (kv.2.rent_or_create_uninitialized t false nid).slice.array.slots.drop
          s.array.slots.length).take s.array.slots.length) = s.array.slots
      rw [List.take_length]
      rw [List.take_left]
    · show isSmallestClassGE M (2 * s.array.slots.length)
        ((s.array.slots.take s.array.slots.length ++
          (kv.2.rent_or_create_uninitialized t false nid).slice.array.slots.drop
            s.array.slots.length).length)
      have hlen2 : (s.array.slots.take s.array.slots.length ++
          (kv.2.rent_or_create_uninitialized t false nid).slice.array.slots.drop
            s.array.slots.length).length = kv.1 := by
        rw [List.length_append, List.length_take, List.length_drop, hrlen]
        omega
      rw [hlen2]
      refine ⟨hsmem, by omega, ?_⟩
      intro cls hcls hle
      exact hsmin cls hcls (by omega)
    · exact pool_dropSlice_not_init rfl
  · intro hbig
    have hnone : p.get_chain (s.array.slots.length * 2) = none := by
      apply find?_sorted_ge
      intro kv hkv
      have hmem : kv.1 ∈ classList M := by
        rw [← hkeys]
        exact List.mem_map_of_mem Prod.fst hkv
      have := hbig kv.1 hmem
      omega
    have hrent := pool_rent_uninit_err hnone t false nid
    unfold ArrayPool.expand_buffer
    dsimp only
    rw [hrent]

/-- Witness for C4 on the concrete pool: expanding a live capacity-8
handle holding the values 0..7 succeeds with a capacity-16 handle whose
first 8 slots are those values in order, and the old handle's release runs
no destructor; expanding a capacity-16 handle fails since no class holds
32. -/
theorem C4_witness :
    ((4 : Nat) ≤ 5 ∧ poolFive.chunk_map.map Prod.fst = classList 5 ∧
      poolFive.WF ∧
      (∃ cls ∈ classList 5,
        2 * ((List.range 8).map (fun i => Slot.live i)).length ≤ cls) ∧
      (∀ cls ∈ classList 5,
        cls < 2 * (List.replicate 16 (Slot.live (0 : Nat))).length)) ∧
    (∃ out, poolFive.expand_buffer 0
        ⟨⟨30, false, (List.range 8).map (fun i => Slot.live i)⟩, 8, true⟩ 1 =
          .ok out ∧
      out.1.slice.array.slots.take
          ((List.range 8).map (fun i => Slot.live i)).length =
        (List.range 8).map (fun i => Slot.live i) ∧
      isSmallestClassGE 5
        (2 * ((List.range 8).map (fun i => Slot.live i)).length)
        out.1.slice.array.slots.length ∧
      out.2.1 = [] ∧ out.2.2 = 0) ∧
    poolFive.expand_buffer 0
        ⟨⟨31, false, List.replicate 16 (Slot.live (0 : Nat))⟩, 16, true⟩ 1 =
      .error .MaxChunkSizeNotSufficient := by
  refine ⟨⟨by decide, by decide, by decide, by decide, by decide⟩, ?_, ?_⟩
  · exact (C4_expand_doubles_and_preserves Nat 5 poolFive 0
      ⟨⟨30, false, (List.range 8).map (fun i => Slot.live i)⟩, 8, true⟩ 1
      (by decide) (by decide) (by decide)).1 (by decide)
  · exact (C4_expand_doubles_and_preserves Nat 5 poolFive 0
      ⟨⟨31, false, List.replicate 16 (Slot.live (0 : Nat))⟩, 16, true⟩ 1
      (by decide) (by decide) (by decide)).2 (by decide)

/-- The pool `with_max_power 4` builds: the single class 8 plus the
degenerate zero-capacity chain — so 8 is both the minimum and the maximum
class. -/
def poolFour : ArrayPool Nat :=
  ⟨BufferChain.new Nat 0, [(8, BufferChain.new Nat 3)]⟩

/-- A live handle at the pool's minimum (and only) class, holding the
values 0..7. -/
def sliceMin : BorrowingSlice Nat :=
  ⟨⟨0, false, (List.range 8).map (fun i => Slot.live i)⟩, 8, true⟩

/-- Counterexample to C3 as stated: on a pool whose minimum class is 8, a
handle of capacity 8 — for which no strictly smaller class exists —
is NOT returned unchanged by `shrink_buffer`: the request for half the
capacity (4) still routes to the class-8 chain, so a different handle
(freshly allocated, id 1 instead of 0) comes back. -/
theorem C3_counterexample_shrink_at_min_class :
    (poolFour.shrink_buffer 0 sliceMin 1).fellBack = false ∧
    (poolFour.shrink_buffer 0 sliceMin 1).slice ≠ sliceMin ∧
    (poolFour.shrink_buffer 0 sliceMin 1).slice.array.id = 1 ∧
    sliceMin.array.id = 0 ∧
    (poolFour.shrink_buffer 0 sliceMin 1).slice.array.slots.length = 8 := by
  decide

/-- C3 amended: `shrink_buffer` never errors; whenever some configured
class can hold half the handle's capacity — which is always the case for a
pool-issued handle, including one already at the minimum class — it
returns a handle (in general a different one) whose capacity is the
smallest class at least `⌊capacity/2⌋` and whose first `⌊capacity/2⌋`
slots are the original first `⌊capacity/2⌋` slots in order; only when
half the capacity exceeds every class is the original handle returned
unchanged. -/
theorem C3_shrink_halves_or_returns_original (α : Type) (M : Nat)
    (p : ArrayPool α) (t : Nat) (s : BorrowingSlice α) (nid : Nat)
    (hM : 4 ≤ M) (hkeys : p.chunk_map.map Prod.fst = classList M)
    (hWF : p.WF) :
    ((∃ cls ∈ classList M, s.array.slots.length / 2 ≤ cls) →
      (p.shrink_buffer t s nid).fellBack = false ∧
      (p.shrink_buffer t s nid).slice.array.slots.take
          (s.array.slots.length / 2) =
        s.array.slots.take (s.array.slots.length / 2) ∧
      isSmallestClassGE M (s.array.slots.length / 2)
        (p.shrink_buffer t s nid).slice.array.slots.length) ∧
    ((∀ cls ∈ classList M, cls < s.array.slots.length / 2) →
      p.shrink_buffer t s nid = ⟨s, p, nid, true⟩) := by
  have hn : s.array.slots.length / 2 ≤ s.array.slots.length :=
    Nat.div_le_self _ _
  constructor
  · intro hex
    obtain ⟨kv, hfind, hsz, hcWF, hsmem, hsge, hsmin⟩ :=
      get_chain_spec (K := s.array.slots.length / 2) hkeys hWF hex
    have hrent := pool_rent_uninit_ok hfind t false nid
    have hrlen : (kv.2.rent_or_create_uninitialized t false nid).slice.array.slots.length
        = kv.1 := by
      rw [rent_uninit_length t false nid hcWF, hsz]
    unfold ArrayPool.shrink_buffer
    dsimp only
    rw [hrent]
    dsimp only
    refine ⟨rfl, ?_, ?_⟩
    · show ((s.array.slots.take (s.array.slots.length / 2) ++
        (kv.2.rent_or_create_uninitialized t false nid).slice.array.slots.drop
          (s.array.slots.length / 2)).take (s.array.slots.length / 2)) =
        s.array.slots.take (s.array.slots.length / 2)
      rw [List.take_append_of_le_length (by rw [List.length_take]; omega)]
      rw [List.take_take]
      simp
    · show isSmallestClassGE M (s.array.slots.length / 2)
        ((s.array.slots.take (s.array.slots.length / 2) ++
          (kv.2.rent_or_create_uninitialized t false nid).slice.array.slots.drop
            (s.array.slots.length / 2)).length)
      have hlen2 : (s.array.slots.take (s.array.slots.length / 2) ++
          (kv.2.rent_or_create_uninitialized t false nid).slice.array.slots.drop
            (s.array.slots.length / 2)).length = kv.1 := by
        rw [List.length_append, List.length_take, List.length_drop, hrlen]
        omega
      rw [hlen2]
      exact ⟨hsmem, hsge, hsmin⟩
  · intro hbig
    have hnone : p.get_chain (s.array.slots.length / 2) = none := by
      apply find?_sorted_ge
      intro kv hkv
      have hmem : kv.1 ∈ classList M := by
        rw [← hkeys]
        exact List.mem_map_of_mem Prod.fst hkv
      have := hbig kv.1 hmem
      omega
    have hrent := pool_rent_uninit_err hnone t false nid
    unfold ArrayPool.shrink_buffer
    dsimp only
    rw [hrent]

/-- Witness for the amended C3, both branches on the concrete single-class
pool: shrinking the minimum-class handle yields a (different) handle of
capacity 8 — the smallest class that can hold 4 — with the first 4 values
preserved; a synthetic capacity-32 handle, whose half exceeds every class,
comes back unchanged. -/
theorem C3_witness :
    ((4 : Nat) ≤ 4 ∧ poolFour.chunk_map.map Prod.fst = classList 4 ∧
      poolFour.WF ∧
      (∃ cls ∈ classList 4, sliceMin.array.slots.length / 2 ≤ cls) ∧
      (∀ cls ∈ classList 4,
        cls < (List.replicate 32 (Slot.live (0 : Nat))).length / 2)) ∧
    ((poolFour.shrink_buffer 0 sliceMin 1).fellBack = false ∧
      (poolFour.shrink_buffer 0 sliceMin 1).slice.array.slots.take
          (sliceMin.array.slots.length / 2) =
        sliceMin.array.slots.take (sliceMin.array.slots.length / 2) ∧
      isSmallestClassGE 4 (sliceMin.array.slots.length / 2)
        (poolFour.shrink_buffer 0 sliceMin 1).slice.array.slots.length) ∧
    poolFour.shrink_buffer 0
        ⟨⟨9, false, List.replicate 32 (Slot.live (0 : Nat))⟩, 8, true⟩ 1 =
      ⟨⟨⟨9, false, List.replicate 32 (Slot.live (0 : Nat))⟩, 8, true⟩,
       poolFour, 1, true⟩ := by
  refine ⟨⟨by decide, by decide, by decide, by decide, by decide⟩, ?_, ?_⟩
  · exact (C3_shrink_halves_or_returns_original Nat 4 poolFour 0 sliceMin 1
      (by decide) (by decide) (by decide)).1 (by decide)
  · exact (C3_shrink_halves_or_returns_original Nat 4 poolFour 0
      ⟨⟨9, false, List.replicate 32 (Slot.live (0 : Nat))⟩, 8, true⟩ 1
      (by decide) (by decide) (by decide)).2 (by decide)

/-- The double-destruction counts along the trace
`rent(1); release; rent(1); release` on the fresh single-class pool, one
thread, a fabricator in play: the pair holds the number of
already-destructed slots destructed again by the first and by the second
release. -/
def doubleDropCounts : Nat × Nat :=
  match poolFour.rent_with 0 (fun _ => 7) 1 0 with
  | .error _ => (99, 99)
  | .ok r₁ =>
    match r₁.pool.dropSlice 0 r₁.slice with
    | (p₁, _, dd₁) =>
      match p₁.rent_with 0 (fun _ => 7) 1 r₁.nextId with
      | .error _ => (dd₁, 99)
      | .ok r₂ =>
        match r₂.pool.dropSlice 0 r₂.slice with
        | (_, _, dd₂) => (dd₁, dd₂)

/-- C2 fails on the code: with each handle released exactly once, the
first release destructs the 8 fabricated slots (no double destruction),
but the second rent hands the stashed buffer back marked live without
reconstructing it, so the second release destructs all 8
already-destructed slots a second time. -/
theorem C2_second_release_double_destructs : doubleDropCounts = (0, 8) := by
  decide

end ArrayPoolModel
